import Mathlib

/-!
Verification of the jeopardy-with-images core logic (src/js/jeopardy.js).

JavaScript strings are modelled as lists of characters (`Str`).  Each
definition below embeds one function (or one inline loop) of the source
file; the line numbers in the doc comments refer to src/js/jeopardy.js.
-/

/-- JavaScript strings, modelled as lists of characters. -/
abbrev Str := List Char

/-- Coerce a Lean string literal to the `Str` model. -/
def str (s : String) : Str := s.data

/-- ECMAScript whitespace (the class matched by `\s` and stripped by
`String.prototype.trim`): tab, LF, VT, FF, CR, space, NBSP, Ogham space,
the `Zs` spaces U+2000..U+200A, LS, PS, NNBSP, MMSP, ideographic space,
and ZWNBSP. -/
def isJsWs (c : Char) : Bool :=
  c = ' ' || c = '\t' || c = '\n' || c = '\x0b' || c = '\x0c' || c = '\r' ||
  c = '\u00A0' || c = '\u1680' ||
  (0x2000 ≤ c.toNat && c.toNat ≤ 0x200A) ||
  c = '\u2028' || c = '\u2029' || c = '\u202F' || c = '\u205F' ||
  c = '\u3000' || c = '\uFEFF'

/-- Drop trailing characters satisfying `p`. -/
def dropEnd (p : Char → Bool) (s : Str) : Str :=
  ((s.reverse).dropWhile p).reverse

/-- JavaScript `String.prototype.trim`: strip leading and trailing
ECMAScript whitespace. -/
def trimStr (s : Str) : Str :=
  dropEnd isJsWs (s.dropWhile isJsWs)

/-- JavaScript `String.prototype.toLowerCase`, restricted to the ASCII
case mapping (all prefixes compared in the source are ASCII). -/
def lowerStr (s : Str) : Str := s.map Char.toLower

/-- JavaScript `s.startsWith(p)`. -/
def startsWithStr : Str → Str → Bool
  | _, [] => true
  | [], _ :: _ => false
  | c :: s', p :: p' => c == p && startsWithStr s' p'

/-- JavaScript `s.split(sep)` for a one-character separator: always
returns at least one (possibly empty) field. -/
def splitOnChar (sep : Char) : Str → List Str
  | [] => [[]]
  | c :: rest =>
    if c = sep then [] :: splitOnChar sep rest
    else
      match splitOnChar sep rest with
      | [] => [[c]]
      | r :: rs => (c :: r) :: rs

/-- JavaScript `text.split(/\r?\n/)`: a separator is either `\r\n` or a
bare `\n`; a `\r` not followed by `\n` is ordinary content. -/
def splitLines : Str → List Str
  | [] => [[]]
  | '\r' :: '\n' :: rest => [] :: splitLines rest
  | '\n' :: rest => [] :: splitLines rest
  | c :: rest =>
    match splitLines rest with
    | [] => [[c]]
    | r :: rs => (c :: r) :: rs

/-- JavaScript `parts.flatten('|')`. -/
def joinChar (sep : Char) : List Str → Str
  | [] => []
  | [x] => x
  | x :: y :: rest => x ++ sep :: joinChar sep (y :: rest)

/-- JavaScript `/^\d+\|/.test(line)`: one or more ASCII digits followed
by a `|`.  Since `|` is not a digit, this holds exactly when the maximal
leading digit run is non-empty and the next character is `|`. -/
def testClueRow (l : Str) : Bool :=
  let ds := l.takeWhile (fun c => c.isDigit)
  !ds.isEmpty && ((l.drop ds.length).head? == some '|')

/-- The draft marker line `[JEOPARDY DRAFT]`. -/
def markerStr : Str := str "[JEOPARDY DRAFT]"

/-! ## Data model

`Clue`, `Category`, `Board` mirror the value/question/answer records the
source builds (`{value, question, answer}` with `value` kept as the raw
text field, as in the parse loops and the form's `.question-value`
`textContent`). -/

structure Clue where
  value : Str
  question : Str
  answer : Str
deriving DecidableEq

structure Category where
  name : Str
  clues : List Clue
deriving DecidableEq

structure Board where
  title : Str
  categories : List Category
deriving DecidableEq

structure Team where
  name : Str
  score : Int
deriving DecidableEq

/-! ## Serializer

`createBoardTextFromForm` (src/js/jeopardy.js lines 1624-1637; the same
text generation appears in `createBoardFromForm` lines 1396-1407).  The
DOM reads that feed it are represented by the `Board` argument. -/

/-- One clue row `${q.value}|${q.question}|${q.answer}\n` (line 1631). -/
def serializeClue (q : Clue) : Str :=
  q.value ++ '|' :: q.question ++ '|' :: q.answer ++ ['\n']

/-- One category block: `Category: {name}\n`, its clue rows, and the
trailing blank line (lines 1627-1635). -/
def serializeCategory (c : Category) : Str :=
  str "Category: " ++ c.name ++ '\n' ::
    ((c.clues.map serializeClue).flatten ++ ['\n'])

/-- `createBoardTextFromForm`, text-generation part (lines 1624-1637):
`Title: {title}\n\n` followed by the five category blocks. -/
def createBoardTextFromForm (b : Board) : Str :=
  str "Title: " ++ b.title ++ '\n' :: '\n' ::
    (b.categories.map serializeCategory).flatten

/-! ## Line grammar: extracting categories and title from text -/

/-- The clue-row parse shared by `populateJeopardyBoardFromText` (lines
653-665) and the import loops (lines 314-324, 479-489): split the
(already trimmed) line on `|`; with at least 3 fields the clue is
`{value: parts[0].trim(), question: parts[1].trim(),
answer: parts.slice(2).flatten('|').trim()}`; otherwise the row is dropped. -/
def parseClueParts (l : Str) : Option Clue :=
  match splitOnChar '|' l with
  | p0 :: p1 :: p2 :: rest =>
    some ⟨trimStr p0, trimStr p1, trimStr (joinChar '|' (p2 :: rest))⟩
  | _ => none

/-- The category/clue extraction loop of `populateJeopardyBoardFromText`
(lines 637-672): per line, trim; skip empty lines; a `category:`-prefixed
line (case-insensitive) closes the open category and opens a new one
named by the remainder (`line.substring(9).trim()`); a `\d+|` line with
at least 3 `|`-fields appends a clue to the open accumulation (clues seen
before any category line are discarded when the first category opens or
at end of input); anything else is ignored.  At end of input the open
category, if any, is appended. -/
def populateLoop : List Str → Option Str → List Clue → List Category
  | [], none, _ => []
  | [], some c, qs => [⟨c, qs⟩]
  | line :: rest, cur, qs =>
    let l := trimStr line
    if l.isEmpty then populateLoop rest cur qs
    else if startsWithStr (lowerStr l) (str "category:") then
      match cur with
      | some c => ⟨c, qs⟩ :: populateLoop rest (some (trimStr (l.drop 9))) []
      | none => populateLoop rest (some (trimStr (l.drop 9))) []
    else if testClueRow l then
      match parseClueParts l with
      | some q => populateLoop rest cur (qs ++ [q])
      | none => populateLoop rest cur qs
    else populateLoop rest cur qs

/-- The categories (with their parsed clue rows) that
`populateJeopardyBoardFromText` extracts from a text. -/
def populateCategories (text : Str) : List Category :=
  populateLoop (splitLines text) none []

/-- `parseTitleFromText` (lines 135-138):
`text.match(/^[\s\t]*title\s*:(.*)$/im)`.  With the `m` flag, `^`/`$`
anchor at every line terminator (`\n`, `\r`, U+2028, U+2029) and `.`
matches no terminator, so the regex examines the terminator-delimited
segments in order; the first segment of the form
`whitespace* "title" whitespace* ":" rest` yields `rest.trim()`,
otherwise the result is the empty string. -/
def isLineTerm (c : Char) : Bool :=
  c = '\n' || c = '\r' || c = '\u2028' || c = '\u2029'

/-- Split at every individual line terminator (the segmentation induced
by `^`/`$` under the `m` regex flag). -/
def splitTermSegs : Str → List Str
  | [] => [[]]
  | c :: rest =>
    if isLineTerm c then [] :: splitTermSegs rest
    else
      match splitTermSegs rest with
      | [] => [[c]]
      | r :: rs => (c :: r) :: rs

/-- Match one segment against `^[\s\t]*title\s*:(.*)$` (case-insensitive),
returning the untrimmed capture. -/
def titleSegMatch (l : Str) : Option Str :=
  let l1 := l.dropWhile isJsWs
  if startsWithStr (lowerStr l1) (str "title") then
    match (l1.drop 5).dropWhile isJsWs with
    | ':' :: rest => some rest
    | _ => none
  else none

/-- `parseTitleFromText` (lines 135-138). -/
def parseTitleFromText (text : Str) : Str :=
  match (splitTermSegs text).findSome? titleSegMatch with
  | some rest => trimStr rest
  | none => []

/-- The structured board the play path reconstructs from a game text:
title via `parseTitleFromText`, categories via the
`populateJeopardyBoardFromText` extraction loop. -/
def extractBoard (text : Str) : Board :=
  ⟨parseTitleFromText text, populateCategories text⟩

/-- `generateGameBoard` (lines 704-725) writes `(row+1)*100` into each
cell's `h3`; `populateJeopardyBoardFromText` (lines 679-691) then
overwrites the `h3` of cell `tq{row}{col}` with the parsed clue's
`value` text whenever category `col` has a parsed row `row`.  This is
the value text a cell at `row`,`col` (both `< 5`) displays after a text
is loaded. -/
def displayedCellValue (text : Str) (row col : Nat) : Str :=
  match (populateCategories text).get? col with
  | some cat =>
    match cat.clues.get? row with
    | some q => q.value
    | none => str (Nat.repr ((row + 1) * 100))
  | none => str (Nat.repr ((row + 1) * 100))

/-! ## Classifier / validator -/

/-- Result of `validateGameFile`; each constructor stands for one of the
distinct result objects of lines 192-240 (`draftMarker` = the
"appears to be a draft file" rejection, `invalidTitle` = the
"should start with Title:" rejection, `tooFewCategories` and
`incompleteCategory` = the two incompleteness rejections, `complete` =
`{isValid: true, type: 'complete'}`). -/
inductive GameFileVerdict where
  | draftMarker
  | invalidTitle
  | tooFewCategories
  | incompleteCategory
  | complete
deriving DecidableEq

/-- State of the category/question counting loop shared by
`validateDraftFile` (lines 153-177) and `validateGameFile`
(lines 205-228). -/
structure ScanState where
  categoryCount : Nat
  hasIncompleteCategory : Bool
  currentCategoryQuestions : Nat
deriving DecidableEq

/-- A trimmed line counts as a complete question row when it matches
`/^\d+\|/` and splitting on `|` gives at least 3 parts with parts 1 and 2
non-empty after trimming (lines 166-171 / 218-223). -/
def partsComplete (l : Str) : Bool :=
  match splitOnChar '|' l with
  | _ :: p1 :: p2 :: _ => !(trimStr p1).isEmpty && !(trimStr p2).isEmpty
  | _ => false

/-- One iteration of the counting loop (lines 158-172 / 210-224),
operating on the trimmed line. -/
def scanLine (st : ScanState) (line : Str) : ScanState :=
  let l := trimStr line
  if startsWithStr (lowerStr l) (str "category:") then
    { categoryCount := st.categoryCount + 1,
      hasIncompleteCategory :=
        st.hasIncompleteCategory ||
          (decide (0 < st.categoryCount) && decide (st.currentCategoryQuestions < 5)),
      currentCategoryQuestions := 0 }
  else if testClueRow l then
    if partsComplete l then
      { st with currentCategoryQuestions := st.currentCategoryQuestions + 1 }
    else st
  else st

/-- `validateGameFile` (lines 192-240): reject when some line trims to
the draft marker; reject when the first line is empty or does not start
(case-insensitively, after trimming) with `title:`; then run the
counting loop over all lines, flag the last open category if it has
fewer than 5 complete rows, and reject on fewer than 5 categories, then
on any incomplete category; otherwise the file is complete. -/
def validateGameFile (text : Str) : GameFileVerdict :=
  let lines := splitLines text
  if lines.any (fun l => trimStr l == markerStr) then .draftMarker
  else if (lines.headD []).isEmpty ||
      !startsWithStr (lowerStr (trimStr (lines.headD []))) (str "title:") then
    .invalidTitle
  else
    let st := lines.foldl scanLine ⟨0, false, 0⟩
    let hasInc := st.hasIncompleteCategory || decide (st.currentCategoryQuestions < 5)
    if st.categoryCount < 5 then .tooFewCategories
    else if hasInc then .incompleteCategory
    else .complete

/-- Result type of `validateDraftFile`: the source's `type` field.  The
function's code paths only ever produce `'draft'`. -/
inductive UploadVerdict where
  | draft
  | complete
deriving DecidableEq

/-- `validateDraftFile` (lines 142-190).  The branch structure is kept
as in the source: an explicit marker on the first line is a draft; a
`title:` first line triggers the same counting loop, after which both
the incomplete case (line 181) and the complete case (line 184,
"Complete games are now allowed as drafts") return `'draft'`; anything
else is accepted as a potential draft (line 189). -/
def validateDraftFile (text : Str) : UploadVerdict :=
  let lines := splitLines text
  if trimStr (lines.headD []) == markerStr then .draft
  else if !(lines.headD []).isEmpty &&
      startsWithStr (lowerStr (trimStr (lines.headD []))) (str "title:") then
    let st := lines.foldl scanLine ⟨0, false, 0⟩
    let hasInc := st.hasIncompleteCategory || decide (st.currentCategoryQuestions < 5)
    if st.categoryCount < 5 || hasInc then .draft
    else .draft
  else .draft

/-! ## Draft import (the `jeopardy-draft-upload` change handler) -/

/-- Result of importing a draft file into the form (lines 280-338). -/
structure DraftImport where
  title : Str
  teams : List Team
  categories : List Category
deriving DecidableEq

/-- The draft parsing loop of the import handler (lines 287-333): per
line, trim; skip empty lines and the marker line; a `title:` line
assigns the title (every occurrence assigns, so a later line overwrites
an earlier one); a `teams:` line with a non-empty remainder replaces the
team list by the comma-split, trimmed names with score 0; a `created:`
line is skipped; a `category:` line closes the open category and opens a
new one; a `\d+|` line with at least 3 parts appends a clue. -/
def importLoop (lines : List Str) (title : Str) (teams : List Team)
    (cats : List Category) (cur : Option Str) (clues : List Clue) :
    Str × List Team × List Category :=
  match lines with
  | [] =>
    (title, teams,
      cats ++ (match cur with | some c => [⟨c, clues⟩] | none => []))
  | line :: rest =>
    let l := trimStr line
    if l.isEmpty || l == markerStr then importLoop rest title teams cats cur clues
    else if startsWithStr (lowerStr l) (str "title:") then
      importLoop rest (trimStr (l.drop 6)) teams cats cur clues
    else if startsWithStr (lowerStr l) (str "teams:") then
      let teamNames := trimStr (l.drop 6)
      if teamNames.isEmpty then importLoop rest title teams cats cur clues
      else
        importLoop rest title
          ((splitOnChar ',' teamNames).map (fun n => ⟨trimStr n, 0⟩)) cats cur clues
    else if startsWithStr (lowerStr l) (str "created:") then
      importLoop rest title teams cats cur clues
    else if startsWithStr (lowerStr l) (str "category:") then
      importLoop rest title teams
        (cats ++ (match cur with | some c => [⟨c, clues⟩] | none => []))
        (some (trimStr (l.drop 9))) []
    else if testClueRow l then
      match parseClueParts l with
      | some q => importLoop rest title teams cats cur (clues ++ [q])
      | none => importLoop rest title teams cats cur clues
    else importLoop rest title teams cats cur clues

/-- The full import of a draft text (lines 280-338): run the loop from
empty state, then, if no teams were found, default to a single team
`Team 1` with score 0 (lines 335-338). -/
def importDraft (text : Str) : DraftImport :=
  let r := importLoop (splitLines text) [] [] [] none []
  ⟨r.1, if r.2.1.isEmpty then [⟨str "Team 1", 0⟩] else r.2.1, r.2.2⟩

/-! ## Session store (localStorage)

The program reads and writes exactly five localStorage keys:
`jeopardyBoard`, `jeopardyUsedCells`, `jeopardyTeams`, `jeopardyTitle`,
`jeopardyFormDraft`.  A store maps each of them to its raw stored string
(`localStorage.getItem` returns a string or `null`). -/

structure Store where
  jeopardyBoard : Option Str
  jeopardyUsedCells : Option Str
  jeopardyTeams : Option Str
  jeopardyTitle : Option Str
  jeopardyFormDraft : Option Str
deriving DecidableEq

/-- `clearAllStorage` (lines 120-122):
`storage.clear('jeopardyBoard', 'jeopardyUsedCells', 'jeopardyTeams',
'jeopardyTitle')` — it does NOT touch `jeopardyFormDraft`. -/
def clearAllStorage (s : Store) : Store :=
  { s with jeopardyBoard := none, jeopardyUsedCells := none,
           jeopardyTeams := none, jeopardyTitle := none }

/-- The storage effect of the `reset-board` click handler (lines
965-987): `localStorage.removeItem('jeopardyTitle')`,
`localStorage.removeItem('jeopardyFormDraft')`, then
`clearAllStorage()`. -/
def resetBoardStorage (s : Store) : Store :=
  clearAllStorage { s with jeopardyTitle := none, jeopardyFormDraft := none }

/-- Every storage-mutating operation in the source, with the serialized
payload of a `storage.save` abstracted as the raw string written. -/
inductive StorageOp where
  | saveBoardStateOp (used : Str)
  | saveTeamsOp (ts : Str)
  | saveBoardTextOp (text : Str)
  | saveTitleOp (t : Str)
  | saveFormDraftOp (d : Str)
  | discardFormDraftOp
  | clearAllStorageOp
  | resetBoardClickOp
deriving DecidableEq

/-- Semantics of each storage operation on the five slots
(`storage.save` at lines 84, 96, 105, 113, 1133, 1278, 1895;
`storage.remove('jeopardyFormDraft')` at line 2065; `clearAllStorage` at
lines 120-122; the reset handler's storage effect at lines 977-981). -/
def applyOp : StorageOp → Store → Store
  | .saveBoardStateOp used, s => { s with jeopardyUsedCells := some used }
  | .saveTeamsOp ts, s => { s with jeopardyTeams := some ts }
  | .saveBoardTextOp t, s => { s with jeopardyBoard := some t }
  | .saveTitleOp t, s => { s with jeopardyTitle := some t }
  | .saveFormDraftOp d, s => { s with jeopardyFormDraft := some d }
  | .discardFormDraftOp, s => { s with jeopardyFormDraft := none }
  | .clearAllStorageOp, s => clearAllStorage s
  | .resetBoardClickOp, s => resetBoardStorage s

/-- All five slots hold a value. -/
def allPresent (s : Store) : Bool :=
  s.jeopardyBoard.isSome && s.jeopardyUsedCells.isSome &&
  s.jeopardyTeams.isSome && s.jeopardyTitle.isSome && s.jeopardyFormDraft.isSome

/-- All five slots are absent. -/
def allAbsent (s : Store) : Bool :=
  s.jeopardyBoard.isNone && s.jeopardyUsedCells.isNone &&
  s.jeopardyTeams.isNone && s.jeopardyTitle.isNone && s.jeopardyFormDraft.isNone

/-! ## `storage.load` and JSON parsing

`storage.load` (lines 50-53) is
`const saved = localStorage.getItem(key); return saved ? JSON.parse(saved) : defaultValue;`
— there is no try/catch, so when `saved` is a non-empty string that
`JSON.parse` cannot parse, the `SyntaxError` escapes to the caller.

`JSON.parse` is a host built-in; it is embedded below as a standard
recursive-descent JSON parser (ECMA-404).  Number lexemes are kept
verbatim (no claim depends on numeric values), and a `\uXXXX` escape
denoting an invalid scalar value maps to NUL via `Char.ofNat`. -/

inductive JValue where
  | null
  | bool (b : Bool)
  | str (s : Str)
  | num (lexeme : Str)
  | arr (elems : List JValue)
  | obj (fields : List (Str × JValue))

/-- JSON insignificant whitespace: space, tab, LF, CR. -/
def skipWsJ (s : Str) : Str :=
  s.dropWhile (fun c => c = ' ' || c = '\t' || c = '\n' || c = '\r')

/-- Hexadecimal digit value (digits, then lower-case and upper-case
letters, by code point). -/
def hexVal (c : Char) : Option Nat :=
  let n := c.toNat
  if 48 ≤ n ∧ n ≤ 57 then some (n - 48)
  else if 97 ≤ n ∧ n ≤ 102 then some (n - 87)
  else if 65 ≤ n ∧ n ≤ 70 then some (n - 55)
  else none

/-- Parse the body of a JSON string (after the opening quote), returning
the decoded content and the remainder after the closing quote. -/
def parseJStr (fuel : Nat) (s : Str) : Option (Str × Str) :=
  match fuel, s with
  | 0, _ => none
  | _, [] => none
  | fuel + 1, c :: rest =>
    if c = '"' then some ([], rest)
    else if c = '\\' then
      match rest with
      | [] => none
      | e :: rest2 =>
        let esc : Option (Char × Str) :=
          if e = '"' then some ('"', rest2)
          else if e = '\\' then some ('\\', rest2)
          else if e = '/' then some ('/', rest2)
          else if e = 'b' then some ('\x08', rest2)
          else if e = 'f' then some ('\x0c', rest2)
          else if e = 'n' then some ('\n', rest2)
          else if e = 'r' then some ('\r', rest2)
          else if e = 't' then some ('\t', rest2)
          else if e = 'u' then
            match rest2 with
            | h1 :: h2 :: h3 :: h4 :: r3 =>
              match hexVal h1, hexVal h2, hexVal h3, hexVal h4 with
              | some a, some b, some c', some d =>
                some (Char.ofNat (((a * 16 + b) * 16 + c') * 16 + d), r3)
              | _, _, _, _ => none
            | _ => none
          else none
        match esc with
        | some (ch, r) => (parseJStr fuel r).map (fun p => (ch :: p.1, p.2))
        | none => none
    else if c.toNat < 0x20 then none
    else (parseJStr fuel rest).map (fun p => (c :: p.1, p.2))

/-- Parse a JSON number lexeme: `-`? int frac? exp?. -/
def parseJNum (s : Str) : Option (Str × Str) :=
  let (neg, s1) : Str × Str :=
    match s with
    | '-' :: r => (['-'], r)
    | _ => ([], s)
  match s1 with
  | [] => none
  | c :: _ =>
    if !c.isDigit then none
    else
      let intPart := if c = '0' then ['0'] else s1.takeWhile Char.isDigit
      let s2 := s1.drop intPart.length
      let (fracPart, s3) : Str × Str :=
        match s2 with
        | '.' :: d :: _ =>
          if d.isDigit then
            let ds := (s2.drop 1).takeWhile Char.isDigit
            ('.' :: ds, s2.drop (1 + ds.length))
          else ([], s2)
        | _ => ([], s2)
      let (expPart, s4) : Str × Str :=
        match s3 with
        | e :: r =>
          if e = 'e' || e = 'E' then
            let (sgn, r2) : Str × Str :=
              match r with
              | '+' :: r' => (['+'], r')
              | '-' :: r' => (['-'], r')
              | _ => ([], r)
            match r2 with
            | d :: _ =>
              if d.isDigit then
                let ds := r2.takeWhile Char.isDigit
                (e :: sgn ++ ds, r2.drop ds.length)
              else ([], s3)
            | [] => ([], s3)
          else ([], s3)
        | [] => ([], s3)
      some (neg ++ intPart ++ fracPart ++ expPart, s4)

mutual

/-- Parse one JSON value (after skipping leading whitespace). -/
def parseJVal : Nat → Str → Option (JValue × Str)
  | 0, _ => none
  | fuel + 1, s =>
    match skipWsJ s with
    | 'n' :: 'u' :: 'l' :: 'l' :: r => some (.null, r)
    | 't' :: 'r' :: 'u' :: 'e' :: r => some (.bool true, r)
    | 'f' :: 'a' :: 'l' :: 's' :: 'e' :: r => some (.bool false, r)
    | '"' :: r => (parseJStr (fuel + 1) r).map (fun p => (.str p.1, p.2))
    | '[' :: r =>
      match skipWsJ r with
      | ']' :: r2 => some (.arr [], r2)
      | s2 => (parseJElems fuel s2).map (fun p => (.arr p.1, p.2))
    | '\x7b' :: r =>
      match skipWsJ r with
      | '\x7d' :: r2 => some (.obj [], r2)
      | s2 => (parseJFields fuel s2).map (fun p => (.obj p.1, p.2))
    | s' => (parseJNum s').map (fun p => (.num p.1, p.2))

/-- Parse the non-empty element list of a JSON array, up to and
including the closing bracket. -/
def parseJElems : Nat → Str → Option (List JValue × Str)
  | 0, _ => none
  | fuel + 1, s =>
    match parseJVal fuel s with
    | none => none
    | some (v, r) =>
      match skipWsJ r with
      | ',' :: r2 => (parseJElems fuel r2).map (fun p => (v :: p.1, p.2))
      | ']' :: r2 => some ([v], r2)
      | _ => none

/-- Parse the non-empty member list of a JSON object, up to and
including the closing brace. -/
def parseJFields : Nat → Str → Option (List (Str × JValue) × Str)
  | 0, _ => none
  | fuel + 1, s =>
    match s with
    | '"' :: r =>
      match parseJStr (fuel + 1) r with
      | none => none
      | some (key, r1) =>
        match skipWsJ r1 with
        | ':' :: r2 =>
          match parseJVal fuel r2 with
          | none => none
          | some (v, r3) =>
            match skipWsJ r3 with
            | ',' :: r4 => (parseJFields fuel (skipWsJ r4)).map
                (fun p => ((key, v) :: p.1, p.2))
            | '\x7d' :: r4 => some ([(key, v)], r4)
            | _ => none
        | _ => none
    | _ => none

end

/-- `JSON.parse`: parse one value and require only whitespace after it.
The fuel `2 * length + 2` suffices: every two fuel units consumed
correspond to at least one input character consumed. -/
def jsonParse (s : Str) : Option JValue :=
  match parseJVal (2 * s.length + 2) s with
  | some (v, rest) => if (skipWsJ rest).isEmpty then some v else none
  | none => none

/-- `storage.load` (lines 50-53) on a slot whose `getItem` result is
`item`: `null` and the empty string are falsy and yield the caller's
default; otherwise the result is `JSON.parse(item)`, whose
`SyntaxError` on unparseable content propagates (modelled as
`Except.error ()`). -/
def storageLoad (item : Option Str) (dflt : JValue) : Except Unit JValue :=
  match item with
  | none => .ok dflt
  | some s =>
    if s.isEmpty then .ok dflt
    else
      match jsonParse s with
      | some v => .ok v
      | none => .error ()

/-! ## Auxiliary predicates and builders used to state the properties -/

/-- No LF or CR characters. -/
def noCRLF (s : Str) : Bool := s.all (fun c => !(c = '\n' || c = '\r'))

/-- No `|` characters. -/
def noPipe (s : Str) : Bool := s.all (fun c => !(c = '|'))

/-- No ECMAScript line terminators (LF, CR, LS, PS). -/
def noTermChars (s : Str) : Bool := s.all (fun c => !isLineTerm c)

/-- All ASCII digits. -/
def allDigits (s : Str) : Bool := s.all Char.isDigit

/-- A title that serializes onto its line intact: trimmed and free of
line terminators. -/
def validTitle (t : Str) : Bool := (trimStr t == t) && noTermChars t

/-- A category name that serializes intact: trimmed and free of CR/LF. -/
def validName (n : Str) : Bool := (trimStr n == n) && noCRLF n

/-- A question that serializes intact: non-empty, trimmed, free of CR/LF
and of `|`. -/
def validQuestion (q : Str) : Bool :=
  (trimStr q == q) && !q.isEmpty && noCRLF q && noPipe q

/-- An answer that serializes intact: non-empty, trimmed, free of CR/LF
(literal `|` is allowed and survives the `slice(2).join('|')` re-join). -/
def validAnswer (a : Str) : Bool := (trimStr a == a) && !a.isEmpty && noCRLF a

/-- A value field recognized by the `/^\d+\|/` row test: a non-empty
digit string. -/
def validValue (v : Str) : Bool := !v.isEmpty && allDigits v

def validClue (q : Clue) : Bool :=
  validValue q.value && validQuestion q.question && validAnswer q.answer

/-- A board the serializer/parser round-trip preserves: valid title,
exactly 5 categories, each with a valid name and exactly 5 valid clues. -/
def validBoard (b : Board) : Bool :=
  validTitle b.title && b.categories.length == 5 &&
  b.categories.all (fun c =>
    validName c.name && c.clues.length == 5 && c.clues.all validClue)

/-- The line a clue occupies in a serialized board (without newline). -/
def rowLine (q : Clue) : Str := q.value ++ '|' :: q.question ++ '|' :: q.answer

/-- The header line of a serialized category (without newline). -/
def catHeader (n : Str) : Str := str "Category: " ++ n

/-- The lines of one serialized category block. -/
def catLines (c : Category) : List Str :=
  catHeader c.name :: c.clues.map rowLine ++ [[]]

/-- The lines of a serialized board. -/
def boardLines (b : Board) : List Str :=
  (str "Title: " ++ b.title) :: [] :: (b.categories.map catLines).flatten

/-- Rejoin lines, terminating each with `\n`. -/
def joinNl (ls : List Str) : Str := (ls.map (fun l => l ++ ['\n'])).flatten

/-- A line the counting loop treats as a category header:
`line.trim().toLowerCase().startsWith('category:')`. -/
def isCatLine (l : Str) : Bool :=
  startsWithStr (lowerStr (trimStr l)) (str "category:")

/-- A line the counting loop counts as a complete question row. -/
def isCompleteRow (l : Str) : Bool :=
  testClueRow (trimStr l) && partsComplete (trimStr l)

/-- Number of complete question rows in a run of lines. -/
def countComplete (seg : List Str) : Nat := (seg.filter isCompleteRow).length

/-- The end-of-input incompleteness test of `validateGameFile`
(lines 226-228 combined with the accumulated flag). -/
def hasIncOf (st : ScanState) : Bool :=
  st.hasIncompleteCategory || decide (st.currentCategoryQuestions < 5)

/-- Closed form of the counting loop over a sequence of category blocks
(header line plus body lines): each header increments the category
count, flags the previous category when its running row count is below
5 (and at least one category was already open), and resets the row
count to the complete-row count of the new block's body. -/
def scanBlocksSpec : Nat → Bool → Nat → List (Str × List Str) → ScanState
  | n, f, k, [] => ⟨n, f, k⟩
  | n, f, k, b :: bs =>
    scanBlocksSpec (n + 1)
      (f || (decide (0 < n) && decide (k < 5))) (countComplete b.2) bs

/-! ## Concrete sample data for witnesses and counterexamples -/

/-- Five valid clues with the canonical value ladder. -/
def sampleClues (q1 : Str) : List Clue :=
  [⟨str "100", q1, str "x"⟩, ⟨str "200", str "q2", str "x"⟩,
   ⟨str "300", str "q3", str "x"⟩, ⟨str "400", str "q4", str "x"⟩,
   ⟨str "500", str "q5", str "x"⟩]

/-- A fully valid 5×5 board. -/
def okBoard : Board :=
  ⟨str "T", [⟨str "A", sampleClues (str "q1")⟩, ⟨str "B", sampleClues (str "q1")⟩,
    ⟨str "C", sampleClues (str "q1")⟩, ⟨str "D", sampleClues (str "q1")⟩,
    ⟨str "E", sampleClues (str "q1")⟩]⟩

/-- A 5×5 board meeting the claim's conditions (all questions and
answers non-empty and trimmed) whose first question contains a literal
`|`. -/
def pipeBoard : Board :=
  ⟨str "T", [⟨str "A", sampleClues (str "a|b")⟩, ⟨str "B", sampleClues (str "q1")⟩,
    ⟨str "C", sampleClues (str "q1")⟩, ⟨str "D", sampleClues (str "q1")⟩,
    ⟨str "E", sampleClues (str "q1")⟩]⟩

/-- A valid 5×5 board whose first clue carries the value text `999`
instead of the ladder value `100`. -/
def offLadderBoard : Board :=
  ⟨str "T", [⟨str "A", ⟨str "999", str "q1", str "x"⟩ :: (sampleClues (str "q")).drop 1⟩,
    ⟨str "B", sampleClues (str "q1")⟩, ⟨str "C", sampleClues (str "q1")⟩,
    ⟨str "D", sampleClues (str "q1")⟩, ⟨str "E", sampleClues (str "q1")⟩]⟩

/-- `okBoard` with only 3 clues in its second category. -/
def shortBoard : Board :=
  ⟨str "T", [⟨str "A", sampleClues (str "q1")⟩, ⟨str "B", (sampleClues (str "q1")).take 3⟩,
    ⟨str "C", sampleClues (str "q1")⟩, ⟨str "D", sampleClues (str "q1")⟩,
    ⟨str "E", sampleClues (str "q1")⟩]⟩

/-- The serialized complete game text of `okBoard`. -/
def completeText : Str := createBoardTextFromForm okBoard

/-- `completeText` followed by a sixth, empty category. -/
def extraCatText : Str := completeText ++ str "Category: Extra\n"

/-- A draft text with two `Title:` lines. -/
def twoTitleText : Str := str "[JEOPARDY DRAFT]\nTitle: A\nTitle: B\n"

/-- A draft text with no `teams:` line. -/
def noTeamsText : Str := str "[JEOPARDY DRAFT]\nTitle: X\nCategory: C\n100|q|a\n"

/-- A store in which every slot holds a value. -/
def fullStore : Store :=
  ⟨some (str "b"), some (str "u"), some (str "t"), some (str "ti"), some (str "d")⟩

/-! ## Lemmas: characters -/

lemma isJsWs_eq_false_of_digit (c : Char) (h : c.isDigit = true) :
    isJsWs c = false := by
  simp [Char.isDigit, UInt32.le_def, BitVec.le_def] at h
  simp [isJsWs, Char.ext_iff, UInt32.ext_iff, BitVec.toNat_eq, Char.toNat,
    UInt32.toNat, UInt32.size]
  omega

lemma ne_pipe_of_digit (c : Char) (h : c.isDigit = true) : (c = '|') = False := by
  simp [Char.isDigit, UInt32.le_def, BitVec.le_def] at h
  simp [Char.ext_iff, UInt32.ext_iff, BitVec.toNat_eq, UInt32.toNat, UInt32.size]
  omega

lemma not_crlf_of_digit (c : Char) (h : c.isDigit = true) :
    (!(c = '\n' || c = '\r')) = true := by
  simp [Char.isDigit, UInt32.le_def, BitVec.le_def] at h
  simp [Char.ext_iff, UInt32.ext_iff, BitVec.toNat_eq, UInt32.toNat, UInt32.size]
  omega

lemma toLower_eq_self_of_digit (c : Char) (h : c.isDigit = true) :
    Char.toLower c = c := by
  have hn : c.toNat ≤ 57 := by
    simp [Char.isDigit, UInt32.le_def, BitVec.le_def] at h
    simp [Char.toNat, UInt32.toNat]
    omega
  rw [Char.toLower.eq_def]
  rw [if_neg]
  omega

lemma isDigit_eq_false_of_toLower_t (c : Char) (h : Char.toLower c = 't') :
    c.isDigit = false := by
  cases hd : c.isDigit with
  | false => rfl
  | true =>
    rw [toLower_eq_self_of_digit c hd] at h
    subst h
    exact absurd hd (by decide)

/-! ## Lemmas: string primitives -/

lemma startsWithStr_append_left (p r : Str) : startsWithStr (p ++ r) p = true := by
  induction p with
  | nil => simp [startsWithStr]
  | cons c p ih => simp [startsWithStr, ih]

lemma startsWithStr_of_ne_head (s p q : Str) (c d : Char) (hcd : c ≠ d)
    (h : startsWithStr s (c :: p) = true) : startsWithStr s (d :: q) = false := by
  cases s with
  | nil => simp [startsWithStr] at h
  | cons e s' =>
    simp [startsWithStr] at h
    obtain ⟨he, -⟩ := h
    subst he
    simp [startsWithStr, hcd]

lemma startsWithStr_head (s p : Str) (c : Char)
    (h : startsWithStr s (c :: p) = true) : ∃ s', s = c :: s' := by
  cases s with
  | nil => simp [startsWithStr] at h
  | cons e s' =>
    simp [startsWithStr] at h
    exact ⟨s', by rw [h.1]⟩

lemma splitOnChar_ne_nil (sep : Char) (s : Str) : splitOnChar sep s ≠ [] := by
  cases s with
  | nil => simp [splitOnChar]
  | cons c rest =>
    rw [splitOnChar]
    split
    · simp
    · split <;> simp

lemma splitOnChar_no_sep (sep : Char) (s : Str) (h : s.all (fun c => !(c = sep)) = true) :
    splitOnChar sep s = [s] := by
  induction s with
  | nil => rfl
  | cons c rest ih =>
    simp at h
    rw [splitOnChar, if_neg h.1, ih (by simpa using h.2)]

lemma splitOnChar_append (sep : Char) (x y : Str)
    (h : x.all (fun c => !(c = sep)) = true) :
    splitOnChar sep (x ++ sep :: y) = x :: splitOnChar sep y := by
  induction x with
  | nil => simp [splitOnChar]
  | cons c rest ih =>
    simp at h
    rw [List.cons_append, splitOnChar, if_neg h.1, ih (by simpa using h.2)]

lemma joinChar_cons_cons (sep c : Char) (r : Str) (rs : List Str) :
    joinChar sep ((c :: r) :: rs) = c :: joinChar sep (r :: rs) := by
  cases rs <;> simp [joinChar]

lemma joinChar_nil_cons (sep : Char) (r : Str) (rs : List Str) :
    joinChar sep ([] :: r :: rs) = sep :: joinChar sep (r :: rs) := by
  simp [joinChar]

lemma joinChar_splitOnChar (sep : Char) (s : Str) :
    joinChar sep (splitOnChar sep s) = s := by
  induction s with
  | nil => rfl
  | cons c rest ih =>
    rw [splitOnChar]
    by_cases hc : c = sep
    · rw [if_pos hc]
      obtain ⟨r, rs, hsp⟩ : ∃ r rs, splitOnChar sep rest = r :: rs := by
        cases hsp : splitOnChar sep rest with
        | nil => exact absurd hsp (splitOnChar_ne_nil sep rest)
        | cons r rs => exact ⟨r, rs, rfl⟩
      rw [hsp, joinChar_nil_cons, ← hsp, ih, hc]
    · rw [if_neg hc]
      obtain ⟨r, rs, hsp⟩ : ∃ r rs, splitOnChar sep rest = r :: rs := by
        cases hsp : splitOnChar sep rest with
        | nil => exact absurd hsp (splitOnChar_ne_nil sep rest)
        | cons r rs => exact ⟨r, rs, rfl⟩
      rw [hsp, joinChar_cons_cons, ← hsp, ih]

lemma splitLines_cons_other (c : Char) (s : Str) (h1 : ¬c = '\n') (h2 : ¬c = '\r') :
    splitLines (c :: s) = match splitLines s with
      | [] => [[c]]
      | r :: rs => (c :: r) :: rs := by
  rw [splitLines.eq_def]
  simp [h1, h2]

lemma splitLines_ne_nil (s : Str) : splitLines s ≠ [] := by
  rw [splitLines.eq_def]
  split
  · simp
  · simp
  · simp
  · split <;> simp

lemma splitLines_line_append (l : Str) (rest : Str) (h : noCRLF l = true) :
    splitLines (l ++ '\n' :: rest) = l :: splitLines rest := by
  induction l with
  | nil => simp [splitLines]
  | cons c t ih =>
    simp [noCRLF] at h
    rw [List.cons_append, splitLines_cons_other c _ h.1.1 h.1.2,
      ih (by simp [noCRLF]; exact h.2)]

lemma splitLines_joinNl (ls : List Str) (rest : Str)
    (h : ∀ l ∈ ls, noCRLF l = true) :
    splitLines (joinNl ls ++ rest) = ls ++ splitLines rest := by
  induction ls with
  | nil => simp [joinNl]
  | cons l t ih =>
    have hl := h l (by simp)
    have ht : ∀ x ∈ t, noCRLF x = true := fun x hx => h x (by simp [hx])
    have hstep : joinNl (l :: t) ++ rest = l ++ '\n' :: (joinNl t ++ rest) := by
      simp [joinNl, List.append_assoc]
    rw [hstep, splitLines_line_append l _ hl, ih ht]
    simp

lemma splitTermSegs_cons_other (c : Char) (s : Str) (h : isLineTerm c = false) :
    splitTermSegs (c :: s) = match splitTermSegs s with
      | [] => [[c]]
      | r :: rs => (c :: r) :: rs := by
  rw [splitTermSegs.eq_def]
  simp [h]

lemma splitTermSegs_seg_append (x : Str) (c : Char) (y : Str)
    (hx : noTermChars x = true) (hc : isLineTerm c = true) :
    splitTermSegs (x ++ c :: y) = x :: splitTermSegs y := by
  induction x with
  | nil => simp [splitTermSegs, hc]
  | cons d t ih =>
    simp [noTermChars] at hx
    rw [List.cons_append, splitTermSegs_cons_other d _ (by simp [hx.1]),
      ih (by simp [noTermChars]; exact hx.2)]

/-! ## Lemmas: trimming -/

lemma dropWhile_append_last (p : Char → Bool) (y : Str) (c : Char) (hc : p c = false) :
    ∃ z, (y ++ [c]).dropWhile p = z ++ [c] := by
  induction y with
  | nil => exact ⟨[], by simp [List.dropWhile, hc]⟩
  | cons d t ih =>
    by_cases hd : p d
    · simpa [List.dropWhile_cons, hd] using ih
    · exact ⟨d :: t, by simp [List.dropWhile_cons, hd]⟩

lemma trim_head_cons (c : Char) (s : Str) (hc : isJsWs c = false) :
    ∃ t, trimStr (c :: s) = c :: t := by
  have h1 : (c :: s).dropWhile isJsWs = c :: s := by simp [List.dropWhile_cons, hc]
  obtain ⟨z, hz⟩ := dropWhile_append_last isJsWs s.reverse c hc
  refine ⟨z.reverse, ?_⟩
  rw [trimStr, h1, dropEnd, List.reverse_cons, hz]
  simp

lemma trimStr_eq_self (s : Str)
    (hh : ∀ c, s.head? = some c → isJsWs c = false)
    (hl : ∀ c, s.getLast? = some c → isJsWs c = false) :
    trimStr s = s := by
  cases s with
  | nil => rfl
  | cons c t =>
    have h1 : (c :: t).dropWhile isJsWs = c :: t := by
      simp [List.dropWhile_cons, hh c rfl]
    cases hd : (c :: t).reverse with
    | nil => simp at hd
    | cons d y =>
      have hlast : (c :: t).getLast? = some d := by
        rw [← List.head?_reverse, hd]
        rfl
      have hwsd := hl d hlast
      have h2 : (c :: t).reverse.dropWhile isJsWs = (c :: t).reverse := by
        rw [hd]
        simp [List.dropWhile_cons, hwsd]
      rw [trimStr, h1, dropEnd, h2, List.reverse_reverse]

lemma trim_parts (s : Str) (h : trimStr s = s) :
    s.dropWhile isJsWs = s ∧ dropEnd isJsWs s = s := by
  have hsuf := List.dropWhile_suffix (l := s) (p := isJsWs)
  have hlen1 : (dropEnd isJsWs (s.dropWhile isJsWs)).length ≤ (s.dropWhile isJsWs).length := by
    rw [dropEnd]
    simpa using (List.dropWhile_suffix (l := (s.dropWhile isJsWs).reverse) (p := isJsWs)).length_le
  have hlen2 : (s.dropWhile isJsWs).length ≤ s.length := hsuf.length_le
  have hfull : (s.dropWhile isJsWs).length = s.length := by
    have := congrArg List.length h
    rw [trimStr] at this
    omega
  have hdw : s.dropWhile isJsWs = s := hsuf.eq_of_length hfull
  refine ⟨hdw, ?_⟩
  rw [trimStr, hdw] at h
  exact h

lemma head_not_ws_of_trimmed (s : Str) (h : trimStr s = s) :
    ∀ c, s.head? = some c → isJsWs c = false := by
  intro c hc
  have hdw := (trim_parts s h).1
  cases s with
  | nil => simp at hc
  | cons e t =>
    simp at hc
    subst hc
    by_contra hws
    simp at hws
    rw [List.dropWhile_cons, if_pos (by simp [hws])] at hdw
    have hlen1 := congrArg List.length hdw
    have hlen2 := (List.dropWhile_suffix (l := t) (p := isJsWs)).length_le
    simp only [List.length_cons] at hlen1
    omega

lemma last_not_ws_of_trimmed (s : Str) (h : trimStr s = s) :
    ∀ c, s.getLast? = some c → isJsWs c = false := by
  intro c hc
  have hde := (trim_parts s h).2
  rw [dropEnd] at hde
  have hrev : s.reverse.dropWhile isJsWs = s.reverse := by
    have := congrArg List.reverse hde
    simpa using this
  rw [← List.head?_reverse] at hc
  cases hs : s.reverse with
  | nil => rw [hs] at hc; simp at hc
  | cons e t =>
    rw [hs] at hc hrev
    simp at hc
    subst hc
    by_contra hws
    simp at hws
    rw [List.dropWhile_cons, if_pos (by simp [hws])] at hrev
    have hlen1 := congrArg List.length hrev
    have hlen2 := (List.dropWhile_suffix (l := t) (p := isJsWs)).length_le
    simp only [List.length_cons] at hlen1
    omega

lemma trim_cons_ws (c : Char) (s : Str) (hc : isJsWs c = true) :
    trimStr (c :: s) = trimStr s := by
  simp [trimStr, List.dropWhile_cons, hc]

lemma getLast?_append_right (x y : Str) (hy : y ≠ []) :
    (x ++ y).getLast? = y.getLast? := by
  rw [← List.head?_reverse, ← List.head?_reverse, List.reverse_append]
  cases hr : y.reverse with
  | nil => simp at hr; exact absurd hr hy
  | cons d t => simp

/-! ## Lemmas: line classification -/

lemma digit_ne_char (c d : Char) (h : c.isDigit = true) (hd : d.isDigit = false) :
    (c = d) = False := by
  simp only [eq_iff_iff, iff_false]
  intro he
  rw [he, hd] at h
  cases h

lemma testClueRow_cons_nondigit (c : Char) (s : Str) (h : c.isDigit = false) :
    testClueRow (c :: s) = false := by
  simp [testClueRow, List.takeWhile_cons, h]

lemma lowerStr_append (x y : Str) : lowerStr (x ++ y) = lowerStr x ++ lowerStr y := by
  simp [lowerStr]

lemma startsWithStr_lower_t_not_c (l : Str) (c : Char)
    (hc : Char.toLower c = 't')
    (h : ∃ t, l = c :: t) :
    startsWithStr (lowerStr l) (str "category:") = false := by
  obtain ⟨t, rfl⟩ := h
  have hcat : str "category:" = 'c' :: str "ategory:" := by decide
  rw [hcat, lowerStr]
  simp [startsWithStr, hc]

lemma takeWhile_all_append (p : Char → Bool) (x : Str) (c : Char) (z : Str)
    (hx : x.all p = true) (hc : p c = false) :
    (x ++ c :: z).takeWhile p = x := by
  induction x with
  | nil => simp [List.takeWhile_cons, hc]
  | cons d t ih =>
    simp at hx
    simp [List.takeWhile_cons, hx.1, ih (by simpa using hx.2)]

lemma noCRLF_append (x y : Str) : noCRLF (x ++ y) = (noCRLF x && noCRLF y) := by
  simp [noCRLF, List.all_append]

lemma noCRLF_of_digits (v : Str) (h : allDigits v = true) : noCRLF v = true := by
  simp [allDigits] at h
  simp [noCRLF]
  intro c hc
  have := not_crlf_of_digit c (h c hc)
  simpa using this

lemma trimStr_of_digits (v : Str) (h : allDigits v = true) : trimStr v = v := by
  simp [allDigits] at h
  apply trimStr_eq_self
  · intro c hc
    have hmem : c ∈ v := by
      cases v with
      | nil => simp at hc
      | cons d t =>
        simp at hc
        subst hc
        simp
    exact isJsWs_eq_false_of_digit c (h c hmem)
  · intro c hc
    have hmem : c ∈ v := by
      obtain ⟨hne, heq⟩ :=
        List.mem_getLast?_eq_getLast (l := v) (x := c) (by simp [Option.mem_def, hc])
      rw [heq]
      exact List.getLast_mem hne
    exact isJsWs_eq_false_of_digit c (h c hmem)


/-! ## Lemmas: parsing serialized clue rows and category headers -/

lemma validClue_fields (q : Clue) (h : validClue q = true) :
    q.value ≠ [] ∧ (∀ c ∈ q.value, c.isDigit = true) ∧
    trimStr q.question = q.question ∧ q.question ≠ [] ∧
    (∀ c ∈ q.question, ¬c = '\n' ∧ ¬c = '\r') ∧ (∀ c ∈ q.question, ¬c = '|') ∧
    trimStr q.answer = q.answer ∧ q.answer ≠ [] ∧
    (∀ c ∈ q.answer, ¬c = '\n' ∧ ¬c = '\r') := by
  simp [validClue, validValue, validQuestion, validAnswer, allDigits, noCRLF, noPipe,
    List.isEmpty_iff, List.all_eq_true] at h
  obtain ⟨⟨⟨hvne, hdig⟩, ⟨⟨h3, h4⟩, h5⟩, h6⟩, ⟨⟨h7, h8⟩, h9⟩⟩ := h
  exact ⟨hvne, hdig, h3, h4, h5, h6, h7, h8, h9⟩

lemma validName_fields (n : Str) (h : validName n = true) :
    trimStr n = n ∧ ∀ c ∈ n, ¬c = '\n' ∧ ¬c = '\r' := by
  simp [validName, noCRLF, List.all_eq_true] at h
  exact h

lemma validTitle_fields (t : Str) (h : validTitle t = true) :
    trimStr t = t ∧ ∀ c ∈ t, isLineTerm c = false := by
  simp [validTitle, noTermChars, List.all_eq_true] at h
  exact h

lemma rowLine_eq (q : Clue) :
    rowLine q = q.value ++ ('|' :: (q.question ++ ('|' :: q.answer))) := by
  simp [rowLine]

lemma rowLine_head (q : Clue) (d : Char) (v' : Str) (hv : q.value = d :: v') :
    rowLine q = d :: (v' ++ ('|' :: (q.question ++ ('|' :: q.answer)))) := by
  rw [rowLine_eq, hv]
  rfl

lemma rowLine_trim (q : Clue) (h : validClue q = true) :
    trimStr (rowLine q) = rowLine q := by
  obtain ⟨hvne, hdig, h3, h4, h5, h6, h7, h8, h9⟩ := validClue_fields q h
  apply trimStr_eq_self
  · intro c hc
    cases hq : q.value with
    | nil => exact absurd hq hvne
    | cons d v' =>
      rw [rowLine_head q d v' hq] at hc
      simp at hc
      subst hc
      exact isJsWs_eq_false_of_digit _ (hdig _ (by rw [hq]; simp))
  · intro c hc
    have hre : rowLine q = (q.value ++ ('|' :: q.question) ++ ['|']) ++ q.answer := by
      rw [rowLine_eq]
      simp
    rw [hre, getLast?_append_right _ _ h8] at hc
    exact last_not_ws_of_trimmed q.answer h7 c hc

lemma rowLine_not_cat (q : Clue) (h : validClue q = true) :
    startsWithStr (lowerStr (rowLine q)) (str "category:") = false := by
  obtain ⟨hvne, hdig, -⟩ := validClue_fields q h
  cases hq : q.value with
  | nil => exact absurd hq hvne
  | cons d v' =>
    have hd : d.isDigit = true := hdig d (by rw [hq]; simp)
    rw [rowLine_head q d v' hq]
    rw [show str "category:" = 'c' :: str "ategory:" from by decide, lowerStr]
    simp only [List.map_cons, startsWithStr]
    rw [toLower_eq_self_of_digit d hd]
    have hne : (d = 'c') = False :=
      digit_ne_char d 'c' hd (show ('c').isDigit = false from by decide)
    simp [hne]

lemma rowLine_testClueRow (q : Clue) (h : validClue q = true) :
    testClueRow (rowLine q) = true := by
  obtain ⟨hvne, hdig, -⟩ := validClue_fields q h
  have htw : (rowLine q).takeWhile Char.isDigit = q.value := by
    rw [rowLine_eq]
    exact takeWhile_all_append _ _ _ _ (List.all_eq_true.mpr hdig) (by decide)
  have hdrop : (rowLine q).drop q.value.length
      = '|' :: (q.question ++ ('|' :: q.answer)) := by
    rw [rowLine_eq]
    exact List.drop_left q.value _
  rw [testClueRow]
  simp only [htw, hdrop]
  simp
  intro hemp
  exact absurd hemp hvne

lemma rowLine_parse (q : Clue) (h : validClue q = true) :
    parseClueParts (rowLine q) = some q := by
  obtain ⟨hvne, hdig, h3, h4, h5, h6, h7, h8, h9⟩ := validClue_fields q h
  have hvnp : q.value.all (fun c => !(c = '|')) = true := by
    rw [List.all_eq_true]
    intro c hc
    simp [digit_ne_char c '|' (hdig c hc) (show ('|').isDigit = false from by decide)]
  have hqnp : q.question.all (fun c => !(c = '|')) = true := by
    rw [List.all_eq_true]
    intro c hc
    simp [h6 c hc]
  have hsplit : splitOnChar '|' (rowLine q)
      = q.value :: q.question :: splitOnChar '|' q.answer := by
    rw [rowLine_eq, splitOnChar_append '|' q.value _ hvnp,
      splitOnChar_append '|' q.question _ hqnp]
  obtain ⟨r, rs, hsp⟩ : ∃ r rs, splitOnChar '|' q.answer = r :: rs := by
    cases hsp : splitOnChar '|' q.answer with
    | nil => exact absurd hsp (splitOnChar_ne_nil '|' q.answer)
    | cons r rs => exact ⟨r, rs, rfl⟩
  have hjoin : joinChar '|' (r :: rs) = q.answer := by
    rw [← hsp, joinChar_splitOnChar]
  rw [parseClueParts, hsplit, hsp]
  simp only [hjoin]
  rw [trimStr_of_digits q.value (by rw [allDigits, List.all_eq_true]; exact hdig), h3, h7]

lemma catHeader_cons (n : Str) : catHeader n = 'C' :: (str "ategory: " ++ n) := by
  rw [catHeader, show str "Category: " = 'C' :: str "ategory: " from by decide]
  rfl

lemma catLine_facts (n : Str) (h : validName n = true) :
    (trimStr (catHeader n)).isEmpty = false ∧
    startsWithStr (lowerStr (trimStr (catHeader n))) (str "category:") = true ∧
    trimStr ((trimStr (catHeader n)).drop 9) = n := by
  obtain ⟨h1, h2⟩ := validName_fields n h
  by_cases hn : n = []
  · subst hn
    refine ⟨?_, ?_, ?_⟩ <;> decide
  · have htrim : trimStr (catHeader n) = catHeader n := by
      apply trimStr_eq_self
      · intro c hc
        rw [catHeader_cons] at hc
        simp at hc
        subst hc
        decide
      · intro c hc
        rw [catHeader, getLast?_append_right _ _ hn] at hc
        exact last_not_ws_of_trimmed n h1 c hc
    rw [htrim]
    refine ⟨by rw [catHeader_cons]; simp, ?_, ?_⟩
    · rw [catHeader, lowerStr_append,
        show lowerStr (str "Category: ") = str "category:" ++ [' '] from by decide,
        List.append_assoc]
      exact startsWithStr_append_left _ _
    · have hdrop : (catHeader n).drop 9 = ' ' :: n := by
        rw [catHeader, show str "Category: " = str "Category:" ++ [' '] from by decide,
          List.append_assoc, show (9 : Nat) = (str "Category:").length from by decide,
          List.drop_left]
        rfl
      rw [hdrop, trim_cons_ws ' ' n (by decide), h1]

/-! ## Lemmas: the populate loop on serialized lines -/

lemma populateLoop_skip (line : Str) (rest : List Str) (cur : Option Str) (qs : List Clue)
    (h : (trimStr line).isEmpty = true) :
    populateLoop (line :: rest) cur qs = populateLoop rest cur qs := by
  rw [populateLoop.eq_def]
  simp [h]

lemma populateLoop_other (line : Str) (rest : List Str) (cur : Option Str) (qs : List Clue)
    (hcat : startsWithStr (lowerStr (trimStr line)) (str "category:") = false)
    (hrow : testClueRow (trimStr line) = false) :
    populateLoop (line :: rest) cur qs = populateLoop rest cur qs := by
  rw [populateLoop.eq_def]
  by_cases he : (trimStr line).isEmpty
  · simp [he]
  · simp [he, hcat, hrow]

lemma populateLoop_cat_some (line : Str) (rest : List Str) (c : Str) (qs : List Clue)
    (hne : (trimStr line).isEmpty = false)
    (hcat : startsWithStr (lowerStr (trimStr line)) (str "category:") = true) :
    populateLoop (line :: rest) (some c) qs =
      ⟨c, qs⟩ :: populateLoop rest (some (trimStr ((trimStr line).drop 9))) [] := by
  rw [populateLoop.eq_def]
  simp [hne, hcat]

lemma populateLoop_cat_none (line : Str) (rest : List Str) (qs : List Clue)
    (hne : (trimStr line).isEmpty = false)
    (hcat : startsWithStr (lowerStr (trimStr line)) (str "category:") = true) :
    populateLoop (line :: rest) none qs =
      populateLoop rest (some (trimStr ((trimStr line).drop 9))) [] := by
  rw [populateLoop.eq_def]
  simp [hne, hcat]

lemma populateLoop_row (line : Str) (rest : List Str) (cur : Option Str) (qs : List Clue)
    (q : Clue)
    (hcat : startsWithStr (lowerStr (trimStr line)) (str "category:") = false)
    (hrow : testClueRow (trimStr line) = true)
    (hparse : parseClueParts (trimStr line) = some q) :
    populateLoop (line :: rest) cur qs = populateLoop rest cur (qs ++ [q]) := by
  have hne : (trimStr line).isEmpty = false := by
    cases ht : trimStr line with
    | nil => rw [ht] at hrow; simp [testClueRow] at hrow
    | cons d t => simp
  rw [populateLoop.eq_def]
  simp [hne, hcat, hrow, hparse]

lemma populateLoop_rows (clues : List Clue) (rest : List Str) (cur : Option Str)
    (qs : List Clue) (h : ∀ q ∈ clues, validClue q = true) :
    populateLoop (clues.map rowLine ++ rest) cur qs = populateLoop rest cur (qs ++ clues) := by
  induction clues generalizing qs with
  | nil => simp
  | cons q t ih =>
    have hq := h q (by simp)
    have ht : ∀ x ∈ t, validClue x = true := fun x hx => h x (by simp [hx])
    rw [List.map_cons, List.cons_append,
      populateLoop_row _ _ _ _ q
        (by rw [rowLine_trim q hq]; exact rowLine_not_cat q hq)
        (by rw [rowLine_trim q hq]; exact rowLine_testClueRow q hq)
        (by rw [rowLine_trim q hq]; exact rowLine_parse q hq),
      ih (qs ++ [q]) ht]
    simp

lemma populateLoop_cats (cats : List Category) (cname : Str) (qs : List Clue)
    (hv : ∀ c ∈ cats, validName c.name = true ∧ ∀ q ∈ c.clues, validClue q = true) :
    populateLoop ((cats.map catLines).flatten ++ [[]]) (some cname) qs
      = ⟨cname, qs⟩ :: cats := by
  induction cats generalizing cname qs with
  | nil =>
    simp only [List.map_nil, List.flatten_nil, List.nil_append]
    rw [populateLoop_skip _ _ _ _ (by decide), populateLoop]
  | cons c t ih =>
    have hc := hv c (by simp)
    have ht : ∀ x ∈ t, validName x.name = true ∧ ∀ q ∈ x.clues, validClue q = true :=
      fun x hx => hv x (by simp [hx])
    obtain ⟨hf1, hf2, hf3⟩ := catLine_facts c.name hc.1
    have hlist : (List.map catLines (c :: t)).flatten ++ [[]]
        = catHeader c.name ::
          (c.clues.map rowLine ++ ([] :: ((List.map catLines t).flatten ++ [[]]))) := by
      simp [catLines]
    rw [hlist, populateLoop_cat_some _ _ _ _ hf1 hf2, hf3,
      populateLoop_rows c.clues _ _ [] hc.2, List.nil_append,
      populateLoop_skip _ _ _ _ (by decide), ih c.name c.clues ht]

/-! ## Lemmas: serialized text decomposes into its lines -/

lemma serializeClue_eq (q : Clue) : serializeClue q = rowLine q ++ ['\n'] := by
  simp [serializeClue, rowLine]

lemma joinNl_cons (x : Str) (ls : List Str) : joinNl (x :: ls) = x ++ '\n' :: joinNl ls := by
  simp [joinNl]

lemma joinNl_append (a b : List Str) : joinNl (a ++ b) = joinNl a ++ joinNl b := by
  simp [joinNl]

lemma serializeCategory_eq (c : Category) : serializeCategory c = joinNl (catLines c) := by
  have h1 : catLines c = catHeader c.name :: (c.clues.map rowLine ++ [[]]) := by
    simp [catLines]
  rw [h1, joinNl_cons, joinNl_append]
  have h2 : joinNl (c.clues.map rowLine) = (c.clues.map serializeClue).flatten := by
    simp only [joinNl, List.map_map]
    congr 1
  rw [h2, serializeCategory, catHeader]
  simp [joinNl]

lemma createBoardText_eq_joinNl (b : Board) :
    createBoardTextFromForm b = joinNl (boardLines b) := by
  have h1 : boardLines b
      = (str "Title: " ++ b.title) :: ([] :: (b.categories.map catLines).flatten) := by
    simp [boardLines]
  rw [h1, joinNl_cons, joinNl_cons, createBoardTextFromForm]
  have h2 : (b.categories.map serializeCategory).flatten
      = joinNl ((b.categories.map catLines).flatten) := by
    induction b.categories with
    | nil => simp [joinNl]
    | cons c t ih =>
      simp only [List.map_cons, List.flatten_cons, joinNl_append, ih]
      rw [serializeCategory_eq]
  rw [h2]
  simp [joinNl]

lemma noCRLF_iff (s : Str) : noCRLF s = true ↔ ∀ c ∈ s, ¬c = '\n' ∧ ¬c = '\r' := by
  simp [noCRLF, List.all_eq_true]

lemma rowLine_noCRLF (q : Clue) (h : validClue q = true) : noCRLF (rowLine q) = true := by
  obtain ⟨-, hdig, -, -, hq5, -, -, -, ha9⟩ := validClue_fields q h
  rw [noCRLF_iff]
  intro x hx
  rw [rowLine_eq] at hx
  simp only [List.mem_append, List.mem_cons] at hx
  rcases hx with hx | rfl | hx | rfl | hx
  · have := not_crlf_of_digit x (hdig x hx)
    simpa using this
  · decide
  · exact hq5 x hx
  · decide
  · exact ha9 x hx

lemma boardLines_clean (b : Board) (h : validBoard b = true) :
    ∀ l ∈ boardLines b, noCRLF l = true := by
  simp only [validBoard, Bool.and_eq_true, List.all_eq_true] at h
  obtain ⟨⟨htitle, -⟩, hcats⟩ := h
  intro l hl
  rw [boardLines] at hl
  simp only [List.mem_cons] at hl
  rcases hl with rfl | rfl | hl
  · rw [noCRLF_iff]
    intro c hc
    rw [List.mem_append] at hc
    rcases hc with hc | hc
    · exact (noCRLF_iff _).mp (by decide) c hc
    · obtain ⟨-, ht2⟩ := validTitle_fields b.title htitle
      have := ht2 c hc
      simp [isLineTerm] at this
      obtain ⟨⟨⟨ha, hb⟩, -⟩, -⟩ := this
      exact ⟨ha, hb⟩
  · decide
  · rw [List.mem_flatten] at hl
    obtain ⟨ls, hls, hmem⟩ := hl
    rw [List.mem_map] at hls
    obtain ⟨c, hcmem, rfl⟩ := hls
    obtain ⟨⟨hname, -⟩, hclues⟩ := hcats c hcmem
    have h1 : catLines c = catHeader c.name :: (c.clues.map rowLine ++ [[]]) := by
      simp [catLines]
    rw [h1] at hmem
    simp only [List.mem_cons, List.mem_append, List.mem_map] at hmem
    rcases hmem with rfl | ⟨q, hq, rfl⟩ | rfl | h0
    · rw [catHeader, noCRLF_iff]
      intro x hx
      rw [List.mem_append] at hx
      rcases hx with hx | hx
      · exact (noCRLF_iff _).mp (by decide) x hx
      · exact (validName_fields c.name hname).2 x hx
    · exact rowLine_noCRLF q (hclues q hq)
    · decide
    · simp at h0

/-! ## Lemmas: title and categories recovered from serialized text -/

lemma titleLine_cons (t : Str) : str "Title: " ++ t = 'T' :: (str "itle: " ++ t) := by
  rw [show str "Title: " = 'T' :: str "itle: " from by decide]
  rfl

lemma titleSegMatch_serialized (t : Str) :
    titleSegMatch (str "Title: " ++ t) = some (' ' :: t) := by
  have hdw : (str "Title: " ++ t).dropWhile isJsWs = str "Title: " ++ t := by
    rw [titleLine_cons, List.dropWhile_cons, if_neg (by decide)]
  have hsw : startsWithStr (lowerStr (str "Title: " ++ t)) (str "title") = true := by
    rw [lowerStr_append,
      show lowerStr (str "Title: ") = str "title" ++ str ": " from by decide,
      List.append_assoc]
    exact startsWithStr_append_left _ _
  have hdrop : (str "Title: " ++ t).drop 5 = ':' :: (' ' :: t) := by
    rw [show str "Title: " = str "Title" ++ str ": " from by decide, List.append_assoc,
      show (5 : Nat) = (str "Title").length from by decide, List.drop_left]
    rfl
  rw [titleSegMatch]
  simp only [hdw, hsw, if_true, hdrop]
  rw [List.dropWhile_cons, if_neg (by decide)]
  rfl

lemma parseTitle_serialized (b : Board) (h : validBoard b = true) :
    parseTitleFromText (createBoardTextFromForm b) = b.title := by
  have htitle : validTitle b.title = true := by
    simp only [validBoard, Bool.and_eq_true] at h
    exact h.1.1
  obtain ⟨htr, hterm⟩ := validTitle_fields b.title htitle
  have hclean : noTermChars (str "Title: " ++ b.title) = true := by
    simp only [noTermChars, List.all_append, Bool.and_eq_true]
    refine ⟨by decide, ?_⟩
    rw [List.all_eq_true]
    intro c hc
    simp [hterm c hc]
  have hsegs : splitTermSegs (createBoardTextFromForm b)
      = (str "Title: " ++ b.title) :: splitTermSegs (joinNl ([] :: (b.categories.map catLines).flatten)) := by
    rw [createBoardText_eq_joinNl,
      show boardLines b = (str "Title: " ++ b.title) :: ([] :: (b.categories.map catLines).flatten)
        from by simp [boardLines],
      joinNl_cons]
    exact splitTermSegs_seg_append _ '\n' _ hclean (by decide)
  rw [parseTitleFromText, hsegs, List.findSome?_cons]
  rw [titleSegMatch_serialized b.title]
  show trimStr (' ' :: b.title) = b.title
  rw [trim_cons_ws ' ' b.title (by decide), htr]

lemma validBoard_cats (b : Board) (h : validBoard b = true) :
    ∀ c ∈ b.categories, validName c.name = true ∧ ∀ q ∈ c.clues, validClue q = true := by
  simp only [validBoard, Bool.and_eq_true, List.all_eq_true] at h
  intro c hc
  obtain ⟨⟨hn, -⟩, hq⟩ := h.2 c hc
  exact ⟨hn, hq⟩

lemma populateCategories_serialized (b : Board) (h : validBoard b = true) :
    populateCategories (createBoardTextFromForm b) = b.categories := by
  have hv := validBoard_cats b h
  have hlen : b.categories.length = 5 := by
    simp only [validBoard, Bool.and_eq_true] at h
    simpa using h.1.2
  have hsplit : splitLines (createBoardTextFromForm b) = boardLines b ++ [[]] := by
    rw [createBoardText_eq_joinNl]
    have := splitLines_joinNl (boardLines b) [] (boardLines_clean b h)
    simpa using this
  rw [populateCategories, hsplit]
  obtain ⟨c0, t, hct⟩ : ∃ c0 t, b.categories = c0 :: t := by
    cases hc : b.categories with
    | nil => rw [hc] at hlen; simp at hlen
    | cons c0 t => exact ⟨c0, t, rfl⟩
  have hln : boardLines b ++ [[]]
      = (str "Title: " ++ b.title) ::
        ([] :: ((b.categories.map catLines).flatten ++ [[]])) := by
    simp [boardLines]
  rw [hln]
  obtain ⟨tl, htl⟩ := trim_head_cons 'T' (str "itle: " ++ b.title) (by decide)
  rw [populateLoop_other _ _ _ _
    (startsWithStr_lower_t_not_c _ 'T' (by decide) ⟨tl, by rw [titleLine_cons]; exact htl⟩)
    (by rw [titleLine_cons, htl]; exact testClueRow_cons_nondigit 'T' tl (by decide))]
  rw [populateLoop_skip _ _ _ _ (by decide)]
  rw [hct]
  have hc0 := hv c0 (by rw [hct]; simp)
  have ht : ∀ x ∈ t, validName x.name = true ∧ ∀ q ∈ x.clues, validClue q = true :=
    fun x hx => hv x (by rw [hct]; simp [hx])
  obtain ⟨hf1, hf2, hf3⟩ := catLine_facts c0.name hc0.1
  have hlist : (List.map catLines (c0 :: t)).flatten ++ [[]]
      = catHeader c0.name ::
        (c0.clues.map rowLine ++ ([] :: ((List.map catLines t).flatten ++ [[]]))) := by
    simp [catLines]
  rw [hlist, populateLoop_cat_none _ _ _ hf1 hf2, hf3,
    populateLoop_rows c0.clues _ _ [] hc0.2, List.nil_append,
    populateLoop_skip _ _ _ _ (by decide), populateLoop_cats t c0.name c0.clues ht]

/-! ## Lemmas: the counting loop of the validators -/

lemma scanLine_cat (st : ScanState) (l : Str) (h : isCatLine l = true) :
    scanLine st l =
      ⟨st.categoryCount + 1,
        st.hasIncompleteCategory ||
          (decide (0 < st.categoryCount) && decide (st.currentCategoryQuestions < 5)), 0⟩ := by
  rw [isCatLine] at h
  rw [scanLine]
  simp [h]

lemma scanLine_noncat (st : ScanState) (l : Str) (h : isCatLine l = false) :
    scanLine st l =
      if isCompleteRow l then
        { st with currentCategoryQuestions := st.currentCategoryQuestions + 1 }
      else st := by
  rw [isCatLine] at h
  rw [scanLine, isCompleteRow]
  by_cases hr : testClueRow (trimStr l)
  · by_cases hp : partsComplete (trimStr l)
    · simp [h, hr, hp]
    · simp [h, hr, hp]
  · simp [h, hr]

lemma foldl_scan_seg (seg : List Str) (n : Nat) (f : Bool) (k : Nat)
    (h : ∀ l ∈ seg, isCatLine l = false) :
    seg.foldl scanLine ⟨n, f, k⟩ = ⟨n, f, k + countComplete seg⟩ := by
  induction seg generalizing k with
  | nil => simp [countComplete]
  | cons l t ih =>
    have hl := h l (by simp)
    have ht : ∀ x ∈ t, isCatLine x = false := fun x hx => h x (by simp [hx])
    rw [List.foldl_cons, scanLine_noncat _ _ hl]
    by_cases hr : isCompleteRow l
    · rw [if_pos hr, ih (k + 1) ht]
      have : countComplete (l :: t) = countComplete t + 1 := by
        simp [countComplete, List.filter_cons, hr]
      rw [this]
      congr 1
      omega
    · rw [if_neg hr, ih k ht]
      have : countComplete (l :: t) = countComplete t := by
        simp [countComplete, List.filter_cons, hr]
      rw [this]

lemma foldl_scan_blocks (blocks : List (Str × List Str)) (n : Nat) (f : Bool) (k : Nat)
    (h : ∀ b ∈ blocks, isCatLine b.1 = true ∧ ∀ l ∈ b.2, isCatLine l = false) :
    (blocks.map (fun b => b.1 :: b.2)).flatten.foldl scanLine ⟨n, f, k⟩
      = scanBlocksSpec n f k blocks := by
  induction blocks generalizing n f k with
  | nil => simp [scanBlocksSpec]
  | cons b bs ih =>
    have hb := h b (by simp)
    have hbs : ∀ x ∈ bs, isCatLine x.1 = true ∧ ∀ l ∈ x.2, isCatLine l = false :=
      fun x hx => h x (by simp [hx])
    simp only [List.map_cons, List.flatten_cons, List.cons_append, List.foldl_append,
      List.foldl_cons]
    rw [scanLine_cat _ _ hb.1]
    rw [show (List.foldl scanLine
        ⟨n + 1, f || (decide (0 < n) && decide (k < 5)), 0⟩ b.2)
      = ⟨n + 1, f || (decide (0 < n) && decide (k < 5)), 0 + countComplete b.2⟩
      from foldl_scan_seg b.2 _ _ _ hb.2]
    rw [ih _ _ _ hbs, scanBlocksSpec]
    congr 2
    omega

lemma scanBlocksSpec_count (blocks : List (Str × List Str)) (n : Nat) (f : Bool) (k : Nat) :
    (scanBlocksSpec n f k blocks).categoryCount = n + blocks.length := by
  induction blocks generalizing n f k with
  | nil => simp [scanBlocksSpec]
  | cons b bs ih =>
    rw [scanBlocksSpec, ih]
    simp
    omega

lemma scanBlocksSpec_flag_true (blocks : List (Str × List Str)) (n : Nat) (k : Nat) :
    hasIncOf (scanBlocksSpec n true k blocks) = true := by
  induction blocks generalizing n k with
  | nil => simp [scanBlocksSpec, hasIncOf]
  | cons b bs ih =>
    rw [scanBlocksSpec]
    simp only [Bool.true_or]
    exact ih _ _

lemma scanBlocksSpec_deficient_entry (blocks : List (Str × List Str)) (n : Nat) (f : Bool)
    (k : Nat) (hn : 0 < n) (hk : k < 5) :
    hasIncOf (scanBlocksSpec n f k blocks) = true := by
  cases blocks with
  | nil => simp [scanBlocksSpec, hasIncOf, hk]
  | cons b bs =>
    rw [scanBlocksSpec]
    rw [show (f || (decide (0 < n) && decide (k < 5))) = true from by simp [hn, hk]]
    exact scanBlocksSpec_flag_true bs _ _

lemma scanBlocksSpec_deficient (blocks : List (Str × List Str)) (n : Nat) (f : Bool)
    (k : Nat) (h : ∃ b ∈ blocks, countComplete b.2 < 5) :
    hasIncOf (scanBlocksSpec n f k blocks) = true := by
  induction blocks generalizing n f k with
  | nil => simp at h
  | cons b bs ih =>
    rw [scanBlocksSpec]
    simp only [List.mem_cons] at h
    obtain ⟨x, hx | hx, hdef⟩ := h
    · subst hx
      cases bs with
      | nil => simp [scanBlocksSpec, hasIncOf, hdef]
      | cons b' bs' =>
        exact scanBlocksSpec_deficient_entry (b' :: bs') (n + 1) _ _ (by omega) hdef
    · exact ih _ _ _ ⟨x, hx, hdef⟩

lemma scanBlocksSpec_complete (blocks : List (Str × List Str)) (n : Nat) (f : Bool) (k : Nat)
    (hstart : k = 5 ∨ n = 0) (h : ∀ b ∈ blocks, countComplete b.2 = 5) :
    scanBlocksSpec n f k blocks
      = ⟨n + blocks.length, f, if blocks.isEmpty then k else 5⟩ := by
  induction blocks generalizing n f k with
  | nil => simp [scanBlocksSpec]
  | cons b bs ih =>
    have hb := h b (by simp)
    have hbs : ∀ x ∈ bs, countComplete x.2 = 5 := fun x hx => h x (by simp [hx])
    rw [scanBlocksSpec]
    have hflag : (f || (decide (0 < n) && decide (k < 5))) = f := by
      rcases hstart with rfl | rfl <;> simp
    rw [hflag, hb, ih (n + 1) f 5 (Or.inl rfl) hbs]
    simp
    omega

lemma isCatLine_false_of_title (t0 : Str)
    (ht0 : startsWithStr (lowerStr (trimStr t0)) (str "title:") = true) :
    isCatLine t0 = false := by
  rw [show str "title:" = 't' :: str "itle:" from by decide] at ht0
  rw [isCatLine, show str "category:" = 'c' :: str "ategory:" from by decide]
  exact startsWithStr_of_ne_head _ _ _ 't' 'c' (by decide) ht0

lemma validateGameFile_structured (text : Str) (t0 : Str) (pre : List Str)
    (blocks : List (Str × List Str))
    (hsplit : splitLines text = t0 :: (pre ++ (blocks.map (fun b => b.1 :: b.2)).flatten))
    (hmark : ∀ l ∈ splitLines text, trimStr l ≠ markerStr)
    (ht0ne : t0 ≠ [])
    (ht0 : startsWithStr (lowerStr (trimStr t0)) (str "title:") = true)
    (hpre : ∀ l ∈ pre, isCatLine l = false)
    (hblocks : ∀ b ∈ blocks, isCatLine b.1 = true ∧ ∀ l ∈ b.2, isCatLine l = false) :
    validateGameFile text =
      (if (scanBlocksSpec 0 false (countComplete (t0 :: pre)) blocks).categoryCount < 5
        then .tooFewCategories
        else if hasIncOf (scanBlocksSpec 0 false (countComplete (t0 :: pre)) blocks)
        then .incompleteCategory
        else .complete) := by
  have hm : (splitLines text).any (fun l => trimStr l == markerStr) = false := by
    rw [List.any_eq_false]
    intro l hl
    simpa using hmark l hl
  have ht0e : t0.isEmpty = false := by
    cases t0 with
    | nil => exact absurd rfl ht0ne
    | cons c s => rfl
  have hfold : (t0 :: (pre ++ (blocks.map (fun b => b.1 :: b.2)).flatten)).foldl
      scanLine ⟨0, false, 0⟩
      = scanBlocksSpec 0 false (countComplete (t0 :: pre)) blocks := by
    rw [show t0 :: (pre ++ (blocks.map (fun b => b.1 :: b.2)).flatten)
        = (t0 :: pre) ++ (blocks.map (fun b => b.1 :: b.2)).flatten from rfl,
      List.foldl_append,
      foldl_scan_seg (t0 :: pre) 0 false 0 (by
        intro l hl
        rcases List.mem_cons.mp hl with rfl | hl
        · exact isCatLine_false_of_title l ht0
        · exact hpre l hl),
      foldl_scan_blocks blocks _ _ _ hblocks]
    norm_num
  rw [validateGameFile, hm]
  simp only [Bool.false_eq_true, if_false]
  rw [hsplit]
  simp only [List.headD_cons, ht0e, ht0, Bool.false_or, Bool.not_true, hfold]
  rfl

/-! ## Lemmas: upload classification and draft import -/

lemma validateDraftFile_always_draft (text : Str) : validateDraftFile text = .draft := by
  rw [validateDraftFile]
  split
  · rfl
  · split
    · simp
    · rfl

lemma titleImportLine_facts (t : Str) (ht : trimStr t = t) :
    (trimStr (str "Title: " ++ t)).isEmpty = false ∧
    (trimStr (str "Title: " ++ t) == markerStr) = false ∧
    startsWithStr (lowerStr (trimStr (str "Title: " ++ t))) (str "title:") = true ∧
    trimStr ((trimStr (str "Title: " ++ t)).drop 6) = t := by
  by_cases hn : t = []
  · subst hn
    refine ⟨?_, ?_, ?_, ?_⟩ <;> decide
  · have htrim : trimStr (str "Title: " ++ t) = str "Title: " ++ t := by
      apply trimStr_eq_self
      · intro c hc
        rw [titleLine_cons] at hc
        simp at hc
        subst hc
        decide
      · intro c hc
        rw [getLast?_append_right _ _ hn] at hc
        exact last_not_ws_of_trimmed t ht c hc
    rw [htrim]
    refine ⟨by rw [titleLine_cons]; simp, ?_, ?_, ?_⟩
    · rw [titleLine_cons, beq_eq_false_iff_ne]
      intro hEq
      have hh := congrArg List.head? hEq
      have hm : List.head? markerStr = some '[' := by decide
      rw [hm, List.head?_cons] at hh
      exact absurd hh (by decide)
    · rw [lowerStr_append,
        show lowerStr (str "Title: ") = str "title:" ++ [' '] from by decide,
        List.append_assoc]
      exact startsWithStr_append_left _ _
    · have hdrop : (str "Title: " ++ t).drop 6 = ' ' :: t := by
        rw [show str "Title: " = str "Title:" ++ [' '] from by decide,
          List.append_assoc, show (6 : Nat) = (str "Title:").length from by decide,
          List.drop_left]
        rfl
      rw [hdrop, trim_cons_ws ' ' t (by decide), ht]

lemma noCRLF_of_noTerm (s : Str) (h : noTermChars s = true) : noCRLF s = true := by
  rw [noCRLF, List.all_eq_true]
  rw [noTermChars, List.all_eq_true] at h
  intro c hc
  have := h c hc
  simp [isLineTerm] at this
  simp [this.1.1.1, this.1.1.2]

lemma importLoop_skip_line (line : Str) (rest : List Str) (title : Str) (teams : List Team)
    (cats : List Category) (cur : Option Str) (clues : List Clue)
    (h : ((trimStr line).isEmpty || (trimStr line == markerStr)) = true) :
    importLoop (line :: rest) title teams cats cur clues
      = importLoop rest title teams cats cur clues := by
  rw [importLoop.eq_def]
  dsimp only
  rw [if_pos h]

lemma importLoop_title_step (line : Str) (rest : List Str) (title : Str) (teams : List Team)
    (cats : List Category) (cur : Option Str) (clues : List Clue)
    (hne : (trimStr line).isEmpty = false) (hnm : (trimStr line == markerStr) = false)
    (ht : startsWithStr (lowerStr (trimStr line)) (str "title:") = true) :
    importLoop (line :: rest) title teams cats cur clues
      = importLoop rest (trimStr ((trimStr line).drop 6)) teams cats cur clues := by
  rw [importLoop.eq_def]
  dsimp only
  rw [if_neg (by simp [hne, hnm]), if_pos ht]

lemma importLoop_teams_nil (lines : List Str) (title : Str) (cats : List Category)
    (cur : Option Str) (clues : List Clue)
    (h : ∀ l ∈ lines, startsWithStr (lowerStr (trimStr l)) (str "teams:") = true →
      (trimStr ((trimStr l).drop 6)).isEmpty = true) :
    (importLoop lines title [] cats cur clues).2.1 = [] := by
  induction lines generalizing title cats cur clues with
  | nil => rfl
  | cons line rest ih =>
    have hl := h line (by simp)
    have hrest : ∀ l ∈ rest, startsWithStr (lowerStr (trimStr l)) (str "teams:") = true →
        (trimStr ((trimStr l).drop 6)).isEmpty = true := fun l hlr => h l (by simp [hlr])
    rw [importLoop.eq_def]
    dsimp only
    split_ifs with h1 h2 h3 h4 h5 h6 h7
    · exact ih _ _ _ _ hrest
    · exact ih _ _ _ _ hrest
    · exact ih _ _ _ _ hrest
    · exact absurd (hl h3) (by simp [h4])
    · exact ih _ _ _ _ hrest
    · exact ih _ _ _ _ hrest
    · split
      · exact ih _ _ _ _ hrest
      · exact ih _ _ _ _ hrest
    · exact ih _ _ _ _ hrest

/-! ## Claim theorems -/

/-- C1 (amended): serializing a `Board` with `createBoardTextFromForm` and
re-extracting it (title via `parseTitleFromText`, categories via the
`populateJeopardyBoardFromText` loop) returns the same board, provided the
board is valid for the text format: title and category names trimmed and
free of line terminators, questions non-empty, trimmed, free of `|` and of
CR/LF, answers non-empty, trimmed and free of CR/LF, and values non-empty
digit strings. -/
theorem roundTrip_valid_board (b : Board) (h : validBoard b = true) :
    extractBoard (createBoardTextFromForm b) = b := by
  rw [extractBoard, parseTitle_serialized b h, populateCategories_serialized b h]

/-- Witness for C1: the round trip holds at a concrete valid board. -/
theorem roundTrip_valid_board_witness :
    validBoard okBoard = true ∧ extractBoard (createBoardTextFromForm okBoard) = okBoard :=
  ⟨by decide, roundTrip_valid_board okBoard (by decide)⟩

/-- Counterexample for C1 as stated: `pipeBoard` satisfies all the claim's
stated conditions (exactly 5 categories, each with exactly 5 clues whose
question and answer are non-empty trimmed strings), yet the round trip does
not return it, because its first question contains a literal `|`. -/
theorem roundTrip_fails_on_pipe_question :
    pipeBoard.categories.length = 5 ∧
    (∀ c ∈ pipeBoard.categories, c.clues.length = 5 ∧
      ∀ q ∈ c.clues, trimStr q.question = q.question ∧ q.question ≠ [] ∧
        trimStr q.answer = q.answer ∧ q.answer ≠ []) ∧
    extractBoard (createBoardTextFromForm pipeBoard) ≠ pipeBoard := by
  refine ⟨by decide, by decide, by decide⟩

/-- C2 (amended): a marker-free text whose first line starts with `title:`
and whose lines decompose into a preamble and exactly 5 category blocks
with 5 complete rows each passes `validateGameFile` (`validateForPlay → ok`),
but `validateDraftFile` (`classifyUpload`) still returns `draft`, never
`complete`: every code path of `validateDraftFile` returns `draft`. -/
theorem completeText_play_ok_classified_draft (text : Str) (t0 : Str) (pre : List Str)
    (blocks : List (Str × List Str))
    (hsplit : splitLines text = t0 :: (pre ++ (blocks.map (fun b => b.1 :: b.2)).flatten))
    (hmark : ∀ l ∈ splitLines text, trimStr l ≠ markerStr)
    (ht0ne : t0 ≠ [])
    (ht0 : startsWithStr (lowerStr (trimStr t0)) (str "title:") = true)
    (hpre : ∀ l ∈ pre, isCatLine l = false)
    (hblocks : ∀ b ∈ blocks, isCatLine b.1 = true ∧ ∀ l ∈ b.2, isCatLine l = false)
    (hlen : blocks.length = 5)
    (hcount : ∀ b ∈ blocks, countComplete b.2 = 5) :
    validateGameFile text = .complete ∧ validateDraftFile text = .draft := by
  refine ⟨?_, validateDraftFile_always_draft text⟩
  rw [validateGameFile_structured text t0 pre blocks hsplit hmark ht0ne ht0 hpre hblocks,
    scanBlocksSpec_complete blocks 0 false _ (Or.inr rfl) hcount]
  have hne : blocks.isEmpty = false := by
    cases blocks with
    | nil => rw [List.length_nil] at hlen; cases hlen
    | cons b bs => rfl
  rw [hne, hlen]
  simp [hasIncOf]

/-- Witness for C2: the serialized text of `okBoard`, decomposed into its
five complete category blocks. -/
theorem completeText_play_ok_classified_draft_witness :
    validateGameFile completeText = .complete ∧ validateDraftFile completeText = .draft :=
  completeText_play_ok_classified_draft completeText (str "Title: T") [[]]
    [(catHeader (str "A"), (sampleClues (str "q1")).map rowLine ++ [[]]),
     (catHeader (str "B"), (sampleClues (str "q1")).map rowLine ++ [[]]),
     (catHeader (str "C"), (sampleClues (str "q1")).map rowLine ++ [[]]),
     (catHeader (str "D"), (sampleClues (str "q1")).map rowLine ++ [[]]),
     (catHeader (str "E"), (sampleClues (str "q1")).map rowLine ++ [[], []])]
    (by decide) (by decide) (by decide) (by decide) (by decide) (by decide)
    (by decide) (by decide)

/-- Counterexample for C2 as stated: on the structurally complete
`completeText` the upload classifier (`validateDraftFile`) does not return
`complete` — it returns `draft` (the play validator does accept the text). -/
theorem completeText_not_classified_complete :
    validateGameFile completeText = .complete ∧ validateDraftFile completeText ≠ .complete := by
  refine ⟨by decide, by decide⟩

/-- C3: any text one of whose lines trims to `[JEOPARDY DRAFT]` is rejected
by `validateGameFile` with the draft-marker reason, whatever else it
contains. -/
theorem marker_rejects_play (text : Str)
    (h : ∃ l ∈ splitLines text, trimStr l = markerStr) :
    validateGameFile text = .draftMarker := by
  have hm : (splitLines text).any (fun l => trimStr l == markerStr) = true := by
    rw [List.any_eq_true]
    obtain ⟨l, hl, he⟩ := h
    exact ⟨l, hl, by simp [he]⟩
  rw [validateGameFile, hm]
  rfl

/-- Witness for C3: a marker line prepended to a structurally complete game
text still yields the draft-marker rejection. -/
theorem marker_rejects_play_witness :
    (∃ l ∈ splitLines (str "[JEOPARDY DRAFT]\n" ++ completeText), trimStr l = markerStr) ∧
    validateGameFile (str "[JEOPARDY DRAFT]\n" ++ completeText) = .draftMarker :=
  ⟨by decide, marker_rejects_play _ (by decide)⟩

/-- C4: a marker-free text starting with `title:` that contains at least 5
category blocks, one of which has fewer than 5 complete rows (the deficient
category may be any of them, not only the last), is rejected by
`validateGameFile` with the incomplete-category reason. -/
theorem incompleteCategory_rejected (text : Str) (t0 : Str) (pre : List Str)
    (blocks : List (Str × List Str))
    (hsplit : splitLines text = t0 :: (pre ++ (blocks.map (fun b => b.1 :: b.2)).flatten))
    (hmark : ∀ l ∈ splitLines text, trimStr l ≠ markerStr)
    (ht0ne : t0 ≠ [])
    (ht0 : startsWithStr (lowerStr (trimStr t0)) (str "title:") = true)
    (hpre : ∀ l ∈ pre, isCatLine l = false)
    (hblocks : ∀ b ∈ blocks, isCatLine b.1 = true ∧ ∀ l ∈ b.2, isCatLine l = false)
    (hlen : 5 ≤ blocks.length)
    (hdef : ∃ b ∈ blocks, countComplete b.2 < 5) :
    validateGameFile text = .incompleteCategory := by
  rw [validateGameFile_structured text t0 pre blocks hsplit hmark ht0ne ht0 hpre hblocks]
  have hcnt := scanBlocksSpec_count blocks 0 false (countComplete (t0 :: pre))
  have hinc := scanBlocksSpec_deficient blocks 0 false (countComplete (t0 :: pre)) hdef
  rw [if_neg (by rw [hcnt]; omega), if_pos hinc]

/-- Witness for C4: the serialized text of `shortBoard`, whose second
category has only 3 rows. -/
theorem incompleteCategory_rejected_witness :
    validateGameFile (createBoardTextFromForm shortBoard) = .incompleteCategory :=
  incompleteCategory_rejected (createBoardTextFromForm shortBoard) (str "Title: T") [[]]
    [(catHeader (str "A"), (sampleClues (str "q1")).map rowLine ++ [[]]),
     (catHeader (str "B"), ((sampleClues (str "q1")).take 3).map rowLine ++ [[]]),
     (catHeader (str "C"), (sampleClues (str "q1")).map rowLine ++ [[]]),
     (catHeader (str "D"), (sampleClues (str "q1")).map rowLine ++ [[]]),
     (catHeader (str "E"), (sampleClues (str "q1")).map rowLine ++ [[], []])]
    (by decide) (by decide) (by decide) (by decide) (by decide) (by decide)
    (by decide) (by decide)

/-- C5 (amended): the incompleteness check of `validateGameFile` is not
limited to the first 5 categories: even when the first five category blocks
each have 5 complete rows, a later category block with fewer than 5 complete
rows causes rejection with the incomplete-category reason (the final open
category is checked at end of input and every `category:` line closes the
previous one, regardless of position). -/
theorem later_incomplete_category_rejected (text : Str) (t0 : Str) (pre : List Str)
    (blocks : List (Str × List Str))
    (hsplit : splitLines text = t0 :: (pre ++ (blocks.map (fun b => b.1 :: b.2)).flatten))
    (hmark : ∀ l ∈ splitLines text, trimStr l ≠ markerStr)
    (ht0ne : t0 ≠ [])
    (ht0 : startsWithStr (lowerStr (trimStr t0)) (str "title:") = true)
    (hpre : ∀ l ∈ pre, isCatLine l = false)
    (hblocks : ∀ b ∈ blocks, isCatLine b.1 = true ∧ ∀ l ∈ b.2, isCatLine l = false)
    (_hfirst : ∀ b ∈ blocks.take 5, countComplete b.2 = 5)
    (hlater : ∃ b ∈ blocks.drop 5, countComplete b.2 < 5) :
    validateGameFile text = .incompleteCategory := by
  obtain ⟨b0, hb0, hb0def⟩ := hlater
  have hlen : 5 ≤ blocks.length := by
    by_contra hlt
    rw [List.drop_eq_nil_of_le (by omega)] at hb0
    simp at hb0
  exact incompleteCategory_rejected text t0 pre blocks hsplit hmark ht0ne ht0 hpre hblocks
    hlen ⟨b0, List.mem_of_mem_drop hb0, hb0def⟩

/-- Witness for C5 (amended): `extraCatText` has five complete categories
followed by a sixth empty one, and is rejected. -/
theorem later_incomplete_category_rejected_witness :
    validateGameFile extraCatText = .incompleteCategory :=
  later_incomplete_category_rejected extraCatText (str "Title: T") [[]]
    [(catHeader (str "A"), (sampleClues (str "q1")).map rowLine ++ [[]]),
     (catHeader (str "B"), (sampleClues (str "q1")).map rowLine ++ [[]]),
     (catHeader (str "C"), (sampleClues (str "q1")).map rowLine ++ [[]]),
     (catHeader (str "D"), (sampleClues (str "q1")).map rowLine ++ [[]]),
     (catHeader (str "E"), (sampleClues (str "q1")).map rowLine ++ [[]]),
     (catHeader (str "Extra"), [[]])]
    (by decide) (by decide) (by decide) (by decide) (by decide) (by decide)
    (by decide) (by decide)

/-- Counterexample for C5 as stated: `extraCatText` is marker-free, starts
with `Title:`, and its first 5 categories each have 5 complete rows, yet
`validateGameFile` does not return ok — the sixth, empty category is also
inspected and triggers the incomplete-category rejection. -/
theorem sixth_category_inspected_counterexample :
    validateGameFile extraCatText ≠ .complete ∧
    validateGameFile extraCatText = .incompleteCategory := by
  refine ⟨by decide, by decide⟩

/-- C6 (amended): for a valid board serialized by `createBoardTextFromForm`,
the value shown in cell `(row, col)` is the clue's raw value text from the
file, not a re-derived ladder value: whatever digit string the clue carries
is displayed verbatim.  (The `(row+1)*100` ladder of `generateGameBoard` is
only the placeholder for cells that receive no parsed clue.) -/
theorem displayed_value_is_file_value (b : Board) (h : validBoard b = true)
    (r c : Nat) (cat : Category) (q : Clue)
    (hcat : b.categories.get? c = some cat) (hq : cat.clues.get? r = some q) :
    displayedCellValue (createBoardTextFromForm b) r c = q.value := by
  rw [displayedCellValue, populateCategories_serialized b h, hcat]
  show (match cat.clues.get? r with
    | some q => q.value
    | none => str (Nat.repr ((r + 1) * 100))) = q.value
  rw [hq]

/-- Witness for C6 (amended): the off-ladder value `999` in row 0, column 0
is displayed verbatim. -/
theorem displayed_value_is_file_value_witness :
    displayedCellValue (createBoardTextFromForm offLadderBoard) 0 0 = str "999" :=
  displayed_value_is_file_value offLadderBoard (by decide) 0 0
    ⟨str "A", ⟨str "999", str "q1", str "x"⟩ :: (sampleClues (str "q")).drop 1⟩
    ⟨str "999", str "q1", str "x"⟩ (by decide) (by decide)

/-- Counterexample for C6 as stated: the serialized text of `offLadderBoard`
is accepted for play, and the cell at row 0 does not show the ladder value
`100` — it shows the file's `999`. -/
theorem displayed_value_not_ladder :
    validateGameFile (createBoardTextFromForm offLadderBoard) = .complete ∧
    displayedCellValue (createBoardTextFromForm offLadderBoard) 0 0 ≠ str "100" := by
  refine ⟨by decide, by decide⟩

/-- C7 (amended): on the import-from-draft path every `title:` line assigns
the title, so with two `Title:` lines the LAST one wins; the regex-based
`parseTitleFromText`, by contrast, honors only the FIRST such line. -/
theorem import_title_last_wins (t1 t2 : Str)
    (h1 : trimStr t1 = t1) (h1t : noTermChars t1 = true)
    (h2 : trimStr t2 = t2) (h2c : noCRLF t2 = true) :
    (importDraft (joinNl [markerStr, str "Title: " ++ t1, str "Title: " ++ t2])).title = t2 ∧
    parseTitleFromText (joinNl [markerStr, str "Title: " ++ t1, str "Title: " ++ t2]) = t1 := by
  have hclean : ∀ l ∈ [markerStr, str "Title: " ++ t1, str "Title: " ++ t2], noCRLF l = true := by
    intro l hl
    simp only [List.mem_cons] at hl
    rcases hl with rfl | rfl | rfl | h0
    · decide
    · rw [noCRLF_append]
      simp [noCRLF_of_noTerm t1 h1t]
      decide
    · rw [noCRLF_append]
      simp [h2c]
      decide
    · simp at h0
  have hlines : splitLines (joinNl [markerStr, str "Title: " ++ t1, str "Title: " ++ t2])
      = [markerStr, str "Title: " ++ t1, str "Title: " ++ t2, []] := by
    have := splitLines_joinNl [markerStr, str "Title: " ++ t1, str "Title: " ++ t2] [] hclean
    simpa using this
  obtain ⟨f1a, f1b, f1c, f1d⟩ := titleImportLine_facts t1 h1
  obtain ⟨f2a, f2b, f2c, f2d⟩ := titleImportLine_facts t2 h2
  constructor
  · rw [importDraft, hlines]
    rw [importLoop_skip_line _ _ _ _ _ _ _ (by decide),
      importLoop_title_step _ _ _ _ _ _ _ f1a f1b f1c, f1d,
      importLoop_title_step _ _ _ _ _ _ _ f2a f2b f2c, f2d,
      importLoop_skip_line _ _ _ _ _ _ _ (by decide)]
    rfl
  · have hsegs : splitTermSegs (joinNl [markerStr, str "Title: " ++ t1, str "Title: " ++ t2])
        = markerStr :: (str "Title: " ++ t1) ::
          splitTermSegs (joinNl [str "Title: " ++ t2]) := by
      rw [joinNl_cons, joinNl_cons,
        splitTermSegs_seg_append markerStr '\n' _ (by decide) (by decide),
        splitTermSegs_seg_append (str "Title: " ++ t1) '\n' _ (by
          rw [noTermChars, List.all_append]
          simp only [Bool.and_eq_true]
          exact ⟨by decide, h1t⟩) (by decide)]
    rw [parseTitleFromText, hsegs, List.findSome?_cons,
      show titleSegMatch markerStr = none from by decide, List.findSome?_cons,
      titleSegMatch_serialized t1]
    show trimStr (' ' :: t1) = t1
    rw [trim_cons_ws ' ' t1 (by decide), h1]

/-- Witness for C7 (amended): with `Title: A` then `Title: B`, the import
yields `B` while `parseTitleFromText` yields `A`. -/
theorem import_title_last_wins_witness :
    (importDraft (joinNl [markerStr, str "Title: " ++ str "A", str "Title: " ++ str "B"])).title
        = str "B" ∧
    parseTitleFromText (joinNl [markerStr, str "Title: " ++ str "A", str "Title: " ++ str "B"])
        = str "A" :=
  import_title_last_wins (str "A") (str "B") (by decide) (by decide) (by decide) (by decide)

/-- Counterexample for C7 as stated: on the import path the first `Title:`
line does NOT determine the title — the later line overwrites it. -/
theorem import_title_not_first :
    (importDraft twoTitleText).title ≠ str "A" ∧
    (importDraft twoTitleText).title = str "B" := by
  refine ⟨by decide, by decide⟩

/-- C8 (amended): the storage effect of the reset click (remove
`jeopardyTitle`, remove `jeopardyFormDraft`, then `clearAllStorage`) leaves
all five slots absent, and among all the storage-mutating operations of the
source it is the only one that removes all five from a store in which all
five are present.  `clearAllStorage` alone removes only four slots — it does
not touch `jeopardyFormDraft`. -/
theorem reset_clears_all_five (op : StorageOp) (s : Store) (hp : allPresent s = true) :
    allAbsent (applyOp .resetBoardClickOp s) = true ∧
    (allAbsent (applyOp op s) = true → op = .resetBoardClickOp) := by
  constructor
  · simp [applyOp, resetBoardStorage, clearAllStorage, allAbsent]
  · intro habs
    cases op <;>
      simp_all [applyOp, resetBoardStorage, clearAllStorage, allAbsent, allPresent]

/-- Witness for C8 (amended): a store with all five slots present. -/
theorem reset_clears_all_five_witness :
    allPresent fullStore = true ∧ allAbsent (applyOp .resetBoardClickOp fullStore) = true :=
  ⟨by decide, (reset_clears_all_five .resetBoardClickOp fullStore (by decide)).1⟩

/-- Counterexample for C8 as stated: after `clearAllStorage` alone the five
slots are not all absent — `jeopardyFormDraft` survives (the reset handler
removes it separately). -/
theorem clearAllStorage_keeps_formDraft :
    (applyOp .clearAllStorageOp fullStore).jeopardyFormDraft = some (str "d") ∧
    allAbsent (applyOp .clearAllStorageOp fullStore) = false := by
  refine ⟨by decide, by decide⟩

/-- C9 (amended): `storage.load` returns the caller's default only when the
stored item is absent (or the empty string); when the slot holds a
non-empty string that `JSON.parse` cannot parse, the parse error propagates
to the caller instead of falling back to the default. -/
theorem storageLoad_default_or_error (d : JValue) (s : Str)
    (hne : s ≠ []) (hp : jsonParse s = none) :
    storageLoad none d = .ok d ∧ storageLoad (some s) d = .error () := by
  refine ⟨rfl, ?_⟩
  have he : s.isEmpty = false := by
    cases s with
    | nil => exact absurd rfl hne
    | cons c t => rfl
  rw [storageLoad, he]
  simp only [Bool.false_eq_true, if_false, hp]

/-- Witness for C9 (amended): the stored content `{` is non-empty and
unparseable, and reading it yields an error, while an absent slot yields
the default. -/
theorem storageLoad_default_or_error_witness :
    (['\x7b'] : Str) ≠ [] ∧ jsonParse ['\x7b'] = none ∧
    (storageLoad none JValue.null = .ok JValue.null ∧
      storageLoad (some ['\x7b']) JValue.null = .error ()) :=
  ⟨by decide, by rfl, storageLoad_default_or_error JValue.null ['\x7b'] (by decide) (by rfl)⟩

/-- Counterexample for C9 as stated: reading a slot whose stored content is
the corrupt string `{` does not return the caller's default — it propagates
the `JSON.parse` error. -/
theorem storageLoad_corrupt_propagates :
    storageLoad (some ['\x7b']) JValue.null = .error () ∧
    storageLoad (some ['\x7b']) JValue.null ≠ .ok JValue.null := by
  constructor
  · rfl
  · intro h
    cases h

/-- C10: importing a draft whose lines contain no `teams:` line with a
non-empty remainder yields exactly the single default team `Team 1` with
score 0, never an empty team list. -/
theorem import_defaults_to_team1 (text : Str)
    (h : ∀ l ∈ splitLines text, startsWithStr (lowerStr (trimStr l)) (str "teams:") = true →
      (trimStr ((trimStr l).drop 6)).isEmpty = true) :
    (importDraft text).teams = [⟨str "Team 1", 0⟩] := by
  have hnil := importLoop_teams_nil (splitLines text) [] [] none [] h
  rw [importDraft]
  dsimp only
  rw [hnil]
  rfl

/-- Witness for C10: a draft with title and a category but no `teams:` line
imports with exactly the default team. -/
theorem import_defaults_to_team1_witness :
    (∀ l ∈ splitLines noTeamsText,
      startsWithStr (lowerStr (trimStr l)) (str "teams:") = true →
        (trimStr ((trimStr l).drop 6)).isEmpty = true) ∧
    (importDraft noTeamsText).teams = [⟨str "Team 1", 0⟩] :=
  ⟨by decide, import_defaults_to_team1 noTeamsText (by decide)⟩
